import Mathlib

/-!
# BioSim — a shallow embedding of the core simulation code, with proofs

This file embeds the core data model and operations of the BioSim
predator/prey simulator (`Map.cpp`, `Animal.cpp`, `BioSim.cpp`) into Lean 4
and proves, or refutes, the specification claims about them.

Modelling conventions:
* C++ `double` values that take part in discrete control flow and state
  (weights, feed, probabilities, RNG draws) are modelled as `ℚ`; the
  real-valued fitness formula itself (which uses `exp`) is modelled over `ℝ`
  in a dedicated section.
* Because every mutation of an animal's weight or age in the source
  invalidates the `_fitness` cache, the cache always holds
  `Species::fitness(weight, age)` whenever it is valid; the embedding
  therefore computes fitness directly.  The numeric fitness function is an
  abstract parameter `fitFn : Nat → ℚ → Nat → ℚ` (species index, weight,
  age) of the state-level operations: the scheduling and membership claims
  hold for every value of the double-precision fitness.
* `std::set<Animal*>` (a cell's habitants, the global animal set) is
  modelled as a `List Nat` of animal identifiers without duplicates; its
  iteration order stands for the (deterministic but address-dependent)
  pointer order of the source.
* `new Animal` is modelled by drawing a fresh identifier from a counter.
* The random generator is modelled as the list of its future uniform draws,
  consumed front to back, exactly at the source's draw points.
* Undefined behaviour in the source (dereferencing a dangling `Animal*`,
  double `delete`) is modelled by returning `none`.
-/

namespace BioSim

/-- Species parameters (`Species` in `Animal.h`), restricted to the fields
the embedded operations read.  All parameters are as registered in the
`Species` constructor. -/
structure SpeciesDef where
  name : String
  predatory : Bool
  v_fod : ℚ
  beta : ℚ
  v_min : ℚ
  gamma : ℚ
  zeta : ℚ
  omega : ℚ
  F : ℚ
  deltaPhiMax : ℚ
  deriving DecidableEq

/-- The zombie species used only to give `List.getD` a default; living code
never reads it (species pointers are always valid in the source). -/
def dfltSpecies : SpeciesDef :=
  { name := "?", predatory := false, v_fod := 0, beta := 0, v_min := 0,
    gamma := 0, zeta := 0, omega := 0, F := 0, deltaPhiMax := 0 }

/-- One animal (`Animal` in `Animal.h`): identifier (standing for the
object's address), species index, weight `_vekt`, age `_alder`, and current
cell `_loci`. -/
structure Beast where
  id : Nat
  isa : Nat
  vekt : ℚ
  alder : Nat
  loci : Option Nat
  deriving DecidableEq

/-- One grid cell (`Cell` in `Map.h`): participation flag of its terrain
archetype, current feed, and resident animal identifiers. -/
structure CellSt where
  live : Bool
  feed : ℚ
  habitants : List Nat
  deriving DecidableEq

/-- The zombie cell produced by `Cell::Cell()`: not live, no feed,
no habitants.  Also the `getD` default for out-of-range indices. -/
def zombieCell : CellSt := { live := false, feed := 0, habitants := [] }

/-- Global simulation state: the species catalog, the global animal set
(`Simulation::animals`), the cells of the map in row-major order, and the
map extent. -/
structure World where
  species : List SpeciesDef
  beasts : List Beast
  cells : List CellSt
  cols : Nat
  rows : Nat
  deriving DecidableEq

/-- Abstract numeric fitness: species index, weight, age ↦ fitness value.
Stands for the double-precision `Species::fitness`. -/
abbrev FitFn := Nat → ℚ → Nat → ℚ

/-- `Animal::fitness()` under the cache invariant (see file header). -/
def Beast.fitness (fitFn : FitFn) (b : Beast) : ℚ := fitFn b.isa b.vekt b.alder

/-- `Map::at(unsigned x, unsigned y)`: bounds-checked lookup; returns the
cell (identified by its coordinates) or NULL (`none`) when out of range. -/
def atXY (cols rows x y : Nat) : Option (Nat × Nat) :=
  if x ≥ cols ∨ y ≥ rows then none else some (x, y)

/-- `Map::candidatesAt(unsigned x, unsigned y)`: the four neighbour slots
(west, north, east, south) exactly as pushed by the source, including the
`x == _cols` / `y == _rows` comparisons for the high edges. -/
def candidatesAt (cols rows x y : Nat) : List (Option (Nat × Nat)) :=
  [ if x = 0 then atXY cols rows x y else atXY cols rows (x - 1) y,
    if y = 0 then atXY cols rows x y else atXY cols rows x (y - 1),
    if x = cols then atXY cols rows x y else atXY cols rows (x + 1) y,
    if y = rows then atXY cols rows x y else atXY cols rows x (y + 1) ]

/-- `std::set` insertion of an animal id into a habitant list. -/
def insertId (id : Nat) (l : List Nat) : List Nat :=
  if id ∈ l then l else l ++ [id]

/-- `Cell::addAnimal()` (query overload): whether the terrain participates. -/
def CellSt.addAnimalQ (c : CellSt) : Bool := c.live

/-- `Cell::addAnimal(Animal*)`: refuse when the terrain does not
participate, otherwise insert into the habitant set. -/
def CellSt.addAnimal (c : CellSt) (id : Nat) : Bool × CellSt :=
  if c.live then (true, { c with habitants := insertId id c.habitants })
  else (false, c)

/-- `Cell::removeAnimal(Animal*)`: erase from the habitant set. -/
def CellSt.removeAnimal (c : CellSt) (id : Nat) : CellSt :=
  { c with habitants := c.habitants.filter (fun x => x ≠ id) }

/-- `Cell::graze(double)`: grant the requested amount when enough feed is
present, otherwise grant what is left and floor the feed at `0`.  Returns
(granted, updated cell). -/
def CellSt.graze (c : CellSt) (ammount : ℚ) : ℚ × CellSt :=
  if c.feed ≥ ammount then (ammount, { c with feed := c.feed - ammount })
  else (c.feed, { c with feed := 0 })

/-- `Animal::moveTo(Cell*)` acting on the moving animal's record and the
cell array.  A NULL destination always fails; a refused `addAnimal` changes
nothing; otherwise the animal is inserted into the destination, removed
from its old cell when that differs, and its `_loci` updated. -/
def moveToSem (b : Beast) (cells : List CellSt) (dest : Option Nat) :
    Bool × Beast × List CellSt :=
  match dest with
  | none => (false, b, cells)
  | some d =>
    let c := cells.getD d zombieCell
    if c.live then
      let cells1 := cells.set d { c with habitants := insertId b.id c.habitants }
      let cells2 :=
        match b.loci with
        | some old =>
          if old = d then cells1
          else cells1.set old ((cells1.getD old zombieCell).removeAnimal b.id)
        | none => cells1
      (true, { b with loci := some d }, cells2)
    else (false, b, cells)

/-- Replace (in place) the record whose identifier matches `b.id`.  Models a
mutation of the pointed-to `Animal` object. -/
def replaceBeast (l : List Beast) (b : Beast) : List Beast :=
  l.map fun x => if x.id = b.id then b else x

/-- Look up an animal object by identifier (pointer dereference). -/
def World.findBeast (w : World) (id : Nat) : Option Beast :=
  w.beasts.find? fun b => b.id = id

/-- Store a mutated animal object back. -/
def World.setBeast (w : World) (b : Beast) : World :=
  { w with beasts := replaceBeast w.beasts b }

/-- Store a mutated cell back. -/
def World.setCell (w : World) (ci : Nat) (c : CellSt) : World :=
  { w with cells := w.cells.set ci c }

/-- The capture-chance computation inside `Animal::eat`: `0` when the
predator is not strictly fitter, the fitness gap over `ΔΦmax` when that gap
lies strictly between `0` and `ΔΦmax`, else `1`. -/
def captureChance (phi_pred phi_prey delta_phi_max : ℚ) : ℚ :=
  let delta_phi := phi_pred - phi_prey
  if phi_pred ≤ phi_prey then 0
  else if delta_phi_max > delta_phi ∧ delta_phi > 0 then delta_phi / delta_phi_max
  else 1

/-- `Animal::eat(Animal*)`: compute the capture chance from the two current
fitness values and consume one uniform draw. -/
def eatSem (fitFn : FitFn) (sp : SpeciesDef) (pred prey : Beast) (rng : List ℚ) :
    Bool × List ℚ :=
  (decide (rng.headD 0 <
    captureChance (pred.fitness fitFn) (prey.fitness fitFn) sp.deltaPhiMax),
   rng.tail)

/-- The predator branch of `Species::feed`: walk the snapshot of the cell's
habitants; for each cellmate of a different species with nonzero weight,
attempt `eat`; on success fatten the predator by `beta ·` prey weight and
record the prey.  Prey lookups go through the global object store; a
dangling identifier (impossible under the world invariant) yields `none`. -/
def predLoop (fitFn : FitFn) (sp : SpeciesDef) (heap : List Beast) :
    List Nat → Beast → List ℚ → Option (Beast × List Nat × List ℚ)
  | [], pred, rng => some (pred, [], rng)
  | m :: rest, pred, rng =>
    (heap.find? fun b => b.id = m).bind fun prey =>
      if prey.isa ≠ pred.isa ∧ prey.vekt ≠ 0 then
        let (eaten, rng') := eatSem fitFn sp pred prey rng
        if eaten then
          let pred' := { pred with vekt := pred.vekt + sp.beta * prey.vekt }
          (predLoop fitFn sp heap rest pred' rng').map fun r =>
            (r.1, m :: r.2.1, r.2.2)
        else predLoop fitFn sp heap rest pred rng'
      else predLoop fitFn sp heap rest pred rng

/-- `Species::feed(Animal*)`: dispatch on `predatory`.  A herbivore grazes
`F` units from its cell and fattens by `beta ·` granted, returning itself;
a predator runs `predLoop` over its cellmates and returns the consumed
prey.  Dereferencing a NULL `_loci` is undefined behaviour (`none`). -/
def speciesFeedSem (fitFn : FitFn) (w : World) (b : Beast) (rng : List ℚ) :
    Option (List Nat × World × List ℚ) :=
  let sp := w.species.getD b.isa dfltSpecies
  match b.loci with
  | none => none
  | some ci =>
    if sp.predatory then
      let cellmates := (w.cells.getD ci zombieCell).habitants
      (predLoop fitFn sp w.beasts cellmates b rng).map fun r =>
        (r.2.1, w.setBeast r.1, r.2.2)
    else
      let c := w.cells.getD ci zombieCell
      let g := c.graze sp.F
      let b' := { b with vekt := b.vekt + sp.beta * g.1 }
      some ([b.id], (w.setBeast b').setCell ci g.2, rng)

/-- `Species::die(double)`: certain death at nonpositive fitness (no draw),
otherwise one uniform draw against `omega · (1 − fitness)`. -/
def SpeciesDef.dieDraw (sp : SpeciesDef) (beastPhi : ℚ) (rng : List ℚ) :
    Bool × List ℚ :=
  if beastPhi ≤ 0 then (true, rng)
  else (decide (rng.headD 0 < sp.omega * (1 - beastPhi)), rng.tail)

/-- The death probability of the spec (`1` at nonpositive fitness, else
`omega · (1 − fitness)`), used to state claim C8. -/
def deathProbability (sp : SpeciesDef) (phi : ℚ) : ℚ :=
  if phi ≤ 0 then 1 else sp.omega * (1 - phi)

/-- Remove an animal id from the cell its `_loci` points to
(the `if (_loci) _loci->removeAnimal(this)` pattern). -/
def removeFromLoci (cells : List CellSt) (loci : Option Nat) (id : Nat) :
    List CellSt :=
  match loci with
  | some ci => cells.set ci ((cells.getD ci zombieCell).removeAnimal id)
  | none => cells

/-- `Animal::die()`: death at weight exactly `0` (short-circuit, no draw)
or by `Species::die` on the current fitness; on death the animal is
unregistered from its cell and its `_loci` cleared. -/
def dieSem (fitFn : FitFn) (sp : SpeciesDef) (b : Beast) (cells : List CellSt)
    (rng : List ℚ) : Bool × Beast × List CellSt × List ℚ :=
  if b.vekt = 0 then
    (true, { b with loci := none }, removeFromLoci cells b.loci b.id, rng)
  else
    let d := sp.dieDraw (b.fitness fitFn) rng
    if d.1 then
      (true, { b with loci := none }, removeFromLoci cells b.loci b.id, d.2)
    else (false, b, cells, d.2)

/-- `ANIMAL_INV`, the sentinel marking a parameter that was not supplied
(the registered default of `F` and `DeltaPhiMax`). -/
def ANIMAL_INV : ℚ := -1

/-- The classification and naming logic of `Species::init`, applied to the
parameter values left by a successful `param_reader_.read` (`F` and
`DeltaPhiMax` default to `ANIMAL_INV`, the name to `""`; the file I/O of
the reader itself is outside the embedding).  `none` models the
`std::runtime_error` thrown when neither parameter was supplied. -/
def speciesInit (F DeltaPhiMax : ℚ) (name : String) : Option SpeciesDef :=
  if F ≠ ANIMAL_INV then
    some { name := if name = "" then "B" else name, predatory := false,
           v_fod := 0, beta := 0, v_min := 0, gamma := 0, zeta := 0,
           omega := 0, F := F, deltaPhiMax := DeltaPhiMax }
  else if DeltaPhiMax ≠ ANIMAL_INV then
    some { name := if name = "" then "R" else name, predatory := true,
           v_fod := 0, beta := 0, v_min := 0, gamma := 0, zeta := 0,
           omega := 0, F := F, deltaPhiMax := DeltaPhiMax }
  else none

/-- `Simulation::genus(name)`: linear search of the species list; NULL
(`none`) when the name is unknown. -/
def genusIdx (species : List SpeciesDef) (name : String) : Option Nat :=
  species.findIdx? fun sp => sp.name = name

/-- `Map::at(x, y)` on the world's row-major cell array: the cell index, or
NULL when the coordinates are out of range. -/
def World.atIdx (w : World) (x y : Nat) : Option Nat :=
  if x ≥ w.cols ∨ y ≥ w.rows then none else some (y * w.cols + x)

/-- `Simulation::vivify(Species*, x, y)`: NULL when the target cell does
not exist or does not accept animals; otherwise a fresh `Animal` at the
species' birthweight and age `0`, placed in the cell (the constructor's
`moveTo`) and inserted into the global set.  Returns the new animal's id,
the updated world, and the bumped allocator. -/
def vivify (w : World) (spIdx : Nat) (x y : Nat) (nid : Nat) :
    Option (Nat × World × Nat) :=
  match w.atIdx x y with
  | none => none
  | some ci =>
    let c := w.cells.getD ci zombieCell
    if c.addAnimalQ then
      let sp := w.species.getD spIdx dfltSpecies
      let b : Beast := { id := nid, isa := spIdx, vekt := sp.v_fod, alder := 0,
                         loci := some ci }
      some (nid,
        { w with beasts := w.beasts ++ [b],
                 cells := w.cells.set ci { c with habitants := insertId nid c.habitants } },
        nid + 1)
    else none

/-- `Simulation::insertAnimal(Species*, age, weight, x, y)`: NULL for a
NULL species, otherwise `vivify` followed by `adjust(age, weight)` on the
new animal. -/
def insertAnimal (w : World) (spIdx : Option Nat) (age : Nat) (weight : ℚ)
    (x y : Nat) (nid : Nat) : Option (Nat × World × Nat) :=
  match spIdx with
  | none => none
  | some si =>
    (vivify w si x y nid).map fun r =>
      (r.1, r.2.1.setBeast { id := r.1, isa := si, vekt := weight, alder := age,
                             loci := w.atIdx x y }, r.2.2)

/-- `Simulation::insertAnimal(name, age, weight, x, y)`: resolve the
species name with `genus`, then insert.  The caller (`readPopulation`)
ignores a NULL result, keeping its state. -/
def insertAnimalByName (w : World) (name : String) (age : Nat) (weight : ℚ)
    (x y : Nat) (nid : Nat) : Option (Nat × World × Nat) :=
  insertAnimal w (genusIdx w.species name) age weight x y nid

/-- `func_q(x, x_half, phi, pos)`: one logistic factor,
`1 / (1 + exp(coeff · phi · (x − x_half)))` with `coeff = ±1`. -/
noncomputable def func_q (x x_half phi : ℝ) (pos : Bool) : ℝ :=
  let coeff : ℝ := if pos then 1 else -1
  1 / (1 + Real.exp (coeff * phi * (x - x_half)))

/-- The sigmoid parameters of one species (`_v_min`, `_a_halv`,
`_phi_alder`, `_v_halv_under`, `_phi_under`, `_v_halv_over`, `_phi_over`). -/
structure FitParams where
  v_min : ℝ
  a_halv : ℝ
  phi_alder : ℝ
  v_halv_under : ℝ
  phi_under : ℝ
  v_halv_over : ℝ
  phi_over : ℝ

/-- `Species::fitness(weight, age)`: `0` below the minimum weight, else the
product of the age factor (`pos = true`), the underweight factor
(`pos = false`) and the overweight factor (`pos = true`). -/
noncomputable def speciesFitness (sp : FitParams) (weight age : ℝ) : ℝ :=
  if weight < sp.v_min then 0
  else
    func_q age sp.a_halv sp.phi_alder true *
    func_q weight sp.v_halv_under sp.phi_under false *
    func_q weight sp.v_halv_over sp.phi_over true

/-- The state invariant of the cell/animal data structure:
animal identifiers are unique; every cell's resident set is duplicate
free; an animal is in a cell's resident set iff that cell is the animal's
own `_loci`; a located animal points at an existing, participating cell;
and every resident identifier belongs to a stored animal. -/
def WInv (w : World) : Prop :=
  ((w.beasts.map Beast.id).Nodup) ∧
  (∀ ci < w.cells.length, ((w.cells.getD ci zombieCell).habitants).Nodup) ∧
  (∀ b ∈ w.beasts, ∀ ci < w.cells.length,
      (b.id ∈ (w.cells.getD ci zombieCell).habitants ↔ b.loci = some ci)) ∧
  (∀ b ∈ w.beasts, b.loci = none ∨
      ∃ ci < w.cells.length, b.loci = some ci ∧
        (w.cells.getD ci zombieCell).live = true) ∧
  (∀ ci < w.cells.length, ∀ id ∈ (w.cells.getD ci zombieCell).habitants,
      ∃ b ∈ w.beasts, b.id = id)

/-- `Animal::moveTo` lifted to the world: look up the moving animal object
and apply `moveToSem`. -/
def World.moveTo (w : World) (aid : Nat) (dest : Option Nat) : Bool × World :=
  match w.findBeast aid with
  | none => (false, w)
  | some b =>
    let r := moveToSem b w.cells dest
    (r.1, { w with beasts := replaceBeast w.beasts r.2.1, cells := r.2.2 })

/-- The cell-array update performed by a successful `Animal::moveTo` into
live cell `d`: insert into the destination's resident set, then erase from
the old cell when it differs.  (This names the `cells` component computed
inside `moveToSem`; the lemma `moveToSem_live` ties the two together.) -/
def moveCells (b : Beast) (cells : List CellSt) (d : Nat) : List CellSt :=
  let c := cells.getD d zombieCell
  let cells1 := cells.set d { c with habitants := insertId b.id c.habitants }
  match b.loci with
  | some old =>
    if old = d then cells1
    else cells1.set old ((cells1.getD old zombieCell).removeAnimal b.id)
  | none => cells1

/-- The destination-insertion step of `moveCells` on its own. -/
def insCell (b : Beast) (cells : List CellSt) (d : Nat) : List CellSt :=
  cells.set d { cells.getD d zombieCell with
                  habitants := insertId b.id (cells.getD d zombieCell).habitants }

/-- The membership test of `Cell::cellMates(Species*, breedersOnly)`: the
resident belongs to the given species and is at least `minAge` old.  The
object behind a resident identifier is found in the heap of existing
animal records (global store plus any not-yet-merged newborns). -/
def mateP (heap : List Beast) (spIdx minAge : Nat) (id : Nat) : Bool :=
  match heap.find? (fun x => x.id = id) with
  | some b => decide (b.isa = spIdx) && decide (minAge ≤ b.alder)
  | none => false

/-- `Cell::cellMates(Species*, breedersOnly = false)`: the residents of the
cell of the given species (with `minAge = 0`, i.e. everybody, newborns
included). -/
def cellMates (heap : List Beast) (c : CellSt) (spIdx minAge : Nat) : List Nat :=
  c.habitants.filter (mateP heap spIdx minAge)

/-- `Species::birthloss()` = `zeta · birthweight`. -/
def SpeciesDef.birthloss (sp : SpeciesDef) : ℚ := sp.zeta * sp.v_fod

/-- `Species::canBreed(weight)` = `weight ≥ v_min + birthloss`. -/
def SpeciesDef.canBreed (sp : SpeciesDef) (weight : ℚ) : Bool :=
  decide (weight ≥ sp.v_min + sp.birthloss)

/-- `Species::birthChance(beast, largeN)` = `fitness · gamma · (N − 1)`
(`N` an int in the source, so `N = 0` gives a negative chance). -/
def SpeciesDef.birthChance (sp : SpeciesDef) (phi : ℚ) (largeN : Nat) : ℚ :=
  phi * sp.gamma * ((largeN : ℚ) - 1)

/-- State threaded through one Breeding pass: the world, the buffer of
newborns of the current cell not yet merged into the global store
(`Cell::breed`'s `retval`), the future draws, and the identifier
allocator. -/
structure BreedSt where
  w : World
  buf : List Beast
  rng : List ℚ
  nid : Nat
  deriving DecidableEq

/-- The animal objects in existence: global store plus in-flight newborns. -/
def BreedSt.heap (st : BreedSt) : List Beast := st.w.beasts ++ st.buf

/-- One iteration of the inner loop of `Cell::breed`: draw against
`birthChance`, and on success run `Animal::breed` — age/`canBreed` gate,
parent weight loss, and `new Animal(isa, _loci)` whose constructor
`moveTo`s the newborn into the parent's cell. -/
def breedAttempt (fitFn : FitFn) (sp : SpeciesDef) (largeN : Nat)
    (st : BreedSt) (aid : Nat) : BreedSt :=
  match st.heap.find? (fun x => x.id = aid) with
  | none => st
  | some b =>
    let birthchance := sp.birthChance (b.fitness fitFn) largeN
    let draw := st.rng.headD 0
    let rng' := st.rng.tail
    if draw < birthchance then
      if b.alder ≠ 0 ∧ sp.canBreed b.vekt = true then
        let parent := { b with vekt := b.vekt - sp.birthloss }
        let baby0 : Beast := { id := st.nid, isa := b.isa, vekt := sp.v_fod,
                               alder := 0, loci := none }
        let mv := moveToSem baby0 st.w.cells parent.loci
        { w := { st.w with beasts := replaceBeast st.w.beasts parent,
                           cells := mv.2.2 },
          buf := replaceBeast st.buf parent ++ [mv.2.1],
          rng := rng', nid := st.nid + 1 }
      else { st with rng := rng' }
    else { st with rng := rng' }

/-- The per-species body of `Cell::breed`: snapshot the same-species
occupants (`theseBeasts`), record `largeN`, then give each snapshot member
one breeding attempt. -/
def breedSpecies (fitFn : FitFn) (ci : Nat) (st : BreedSt) (spIdx : Nat) :
    BreedSt :=
  let sp := st.w.species.getD spIdx dfltSpecies
  let mates := cellMates st.heap (st.w.cells.getD ci zombieCell) spIdx 0
  mates.foldl (breedAttempt fitFn sp mates.length) st

/-- `Cell::breed(genera)`: fresh `retval` buffer, then the species loop. -/
def cellBreed (fitFn : FitFn) (genera : List Nat) (ci : Nat) (st : BreedSt) :
    BreedSt :=
  genera.foldl (breedSpecies fitFn ci) { st with buf := [] }

/-- One iteration of the Breeding loop in `Simulation::step`: run the
cell's breed, then insert the returned newborns into the global set. -/
def breedStep (fitFn : FitFn) (genera : List Nat) (st : BreedSt) (ci : Nat) :
    BreedSt :=
  let st' := cellBreed fitFn genera ci st
  { st' with w := { st'.w with beasts := st'.w.beasts ++ st'.buf }, buf := [] }

/-- The Breeding pass over a prefix of the (shuffled) cell traversal. -/
def breedPassUpTo (fitFn : FitFn) (genera : List Nat) (st : BreedSt)
    (order : List Nat) : BreedSt :=
  order.foldl (breedStep fitFn genera) st

/-- The (species, age, location) view of the record behind an identifier. -/
def heapView (heap : List Beast) (id : Nat) : Option (Nat × Nat × Option Nat) :=
  (heap.find? (fun x => x.id = id)).map (fun b => (b.isa, b.alder, b.loci))

/-- Invariant threaded through the Breeding pass: object identifiers are
unique, every resident identifier has a record located in that cell, and
all identifiers are below the allocator. -/
def BInv (st : BreedSt) : Prop :=
  ((st.heap.map Beast.id).Nodup) ∧
  (∀ ci < st.w.cells.length, ∀ id ∈ (st.w.cells.getD ci zombieCell).habitants,
      ∃ b ∈ st.heap, b.id = id ∧ b.loci = some ci) ∧
  (∀ b ∈ st.heap, b.id < st.nid)

/-- The same-species occupant snapshot that `Cell::breed` takes for one
cell and species (its length is the `largeN` of every `birthChance` call
of that (cell, species) round). -/
def cellMatesAt (st : BreedSt) (ci s : Nat) : List Nat :=
  cellMates st.heap (st.w.cells.getD ci zombieCell) s 0

/-- `part_pred` / `Species::predator()` lifted to the world: whether the
species an animal belongs to is predatory. -/
def World.isPred (w : World) (b : Beast) : Bool :=
  (w.species.getD b.isa dfltSpecies).predatory

/-- `animals.erase(ptr); delete ptr` for one consumed animal: the
destructor removes the animal from its cell (`_loci->removeAnimal`).
Deleting an already-freed pointer is undefined behaviour (`none`). -/
def deleteBeast (w : World) (aid : Nat) : Option World :=
  match w.findBeast aid with
  | none => none
  | some b =>
    some { w with beasts := w.beasts.filter (fun x => x.id ≠ aid),
                  cells := removeFromLoci w.cells b.loci aid }

/-- The inner delete loop of the Sustenance season: erase-and-delete every
animal of the food vector in order. -/
def deleteFood (w : World) (food : List Nat) : Option World :=
  food.foldl (fun acc fid => acc.bind fun wa => deleteBeast wa fid) (some w)

/-- One iteration of the Sustenance while-loop for the animal pointed at by
`aid`: dereference the pointer (undefined behaviour when already freed),
call `feed()`, then either count the animal as prey (its food vector is
exactly itself) or erase-and-delete every consumed animal. -/
def feedTurn (fitFn : FitFn) (w : World) (aid : Nat) (rng : List ℚ) :
    Option (World × List ℚ) :=
  match w.findBeast aid with
  | none => none
  | some b =>
    match speciesFeedSem fitFn w b rng with
    | none => none
    | some (food, w1, rng1) =>
      if food = [aid] then some (w1, rng1)
      else (deleteFood w1 food).map fun w2 => (w2, rng1)

/-- The fold step of the Sustenance pass (a failed turn poisons the rest). -/
def feedStep (fitFn : FitFn) (acc : Option (World × List ℚ)) (aid : Nat) :
    Option (World × List ℚ) :=
  acc.bind fun pr => feedTurn fitFn pr.1 aid pr.2

/-- The Sustenance iteration order: all animals sorted by fitness
descending (`std::sort` with `p_fit`), then stably partitioned with the
herbivores first (`std::stable_partition` with `part_pred`). -/
def feedOrder (fitFn : FitFn) (w : World) : List Nat :=
  let sorted := List.insertionSort
    (fun a b => Beast.fitness fitFn b ≤ Beast.fitness fitFn a) w.beasts
  ((sorted.filter fun b => !(w.isPred b)) ++
    (sorted.filter fun b => w.isPred b)).map Beast.id

/-- The whole Sustenance season: run every feeding turn in order. -/
def feedPass (fitFn : FitFn) (w : World) (rng : List ℚ) :
    Option (World × List ℚ) :=
  (feedOrder fitFn w).foldl (feedStep fitFn) (some (w, rng))

/-- The identity-preserved part of an animal record (everything except the
weight, which feeding mutates). -/
def beastSkel (b : Beast) : Nat × Nat × Option Nat := (b.id, b.isa, b.loci)

/-- The membership-relevant part of a cell record (everything except the
feed level, which grazing mutates). -/
def cellSkel (c : CellSt) : Bool × List Nat := (c.live, c.habitants)

/-- **C1 (amended).**  `candidatesAt` substitutes the cell itself only at
the *low* edges (west at `x = 0`, north at `y = 0`).  The high-edge
comparisons `x == _cols` and `y == _rows` never fire for an in-range
0-based coordinate, so a cell in the last column gets `at(x+1, y)` = NULL
as its east neighbour, and a cell in the last row gets NULL as its south
neighbour; interior slots are the orthogonal neighbours.  An animal that
draws a NULL neighbour nonetheless stays put, because `Animal::moveTo`
with a NULL destination fails with no state change. -/
theorem candidatesAt_spec (cols rows x y : Nat) (hx : x < cols) (hy : y < rows) :
    (candidatesAt cols rows x y =
      [ some (if x = 0 then (x, y) else (x - 1, y)),
        some (if y = 0 then (x, y) else (x, y - 1)),
        if x + 1 < cols then some (x + 1, y) else none,
        if y + 1 < rows then some (x, y + 1) else none ]) ∧
    (∀ (b : Beast) (cells : List CellSt), moveToSem b cells none = (false, b, cells)) := by
  constructor
  · simp only [candidatesAt, atXY, List.cons.injEq, and_true]
    refine ⟨?_, ?_, ?_, ?_⟩
    · by_cases h0 : x = 0
      · subst h0; simp [hx.le, not_or, Nat.not_le.mpr hx, Nat.not_le.mpr hy]
      · have hx1 : ¬ (cols ≤ x - 1 ∨ rows ≤ y) := by
          push_neg
          exact ⟨lt_of_le_of_lt (Nat.sub_le x 1) hx, hy⟩
        simp [h0, hx1]
    · by_cases h0 : y = 0
      · subst h0; simp [not_or, Nat.not_le.mpr hx, Nat.not_le.mpr hy]
      · have hy1 : ¬ (cols ≤ x ∨ rows ≤ y - 1) := by
          push_neg
          exact ⟨hx, lt_of_le_of_lt (Nat.sub_le y 1) hy⟩
        simp [h0, hy1]
    · have hne : x ≠ cols := Nat.ne_of_lt hx
      by_cases h1 : x + 1 < cols
      · have : ¬ (cols ≤ x + 1 ∨ rows ≤ y) := by push_neg; exact ⟨h1, hy⟩
        simp [hne, h1, this]
      · have : cols ≤ x + 1 ∨ rows ≤ y := Or.inl (Nat.le_of_not_lt h1)
        simp [hne, h1, this]
    · have hne : y ≠ rows := Nat.ne_of_lt hy
      by_cases h1 : y + 1 < rows
      · have : ¬ (cols ≤ x ∨ rows ≤ y + 1) := by push_neg; exact ⟨hx, h1⟩
        simp [hne, h1, this]
      · have : cols ≤ x ∨ rows ≤ y + 1 := Or.inr (Nat.le_of_not_lt h1)
        simp [hne, h1, this]
  · intro b cells; rfl

/-- **C1 witness.**  The characterization evaluated on a 3×3 grid at the
interior cell (1,1) and at the high-corner cell (2,2). -/
theorem candidatesAt_spec_witness :
    candidatesAt 3 3 1 1 =
      [some (0, 1), some (1, 0), some (2, 1), some (1, 2)] ∧
    candidatesAt 3 3 2 2 =
      [some (1, 2), some (2, 1), none, none] := by
  have h1 := (candidatesAt_spec 3 3 1 1 (by decide) (by decide)).1
  have h2 := (candidatesAt_spec 3 3 2 2 (by decide) (by decide)).1
  exact ⟨by rw [h1]; decide, by rw [h2]; decide⟩

/-- **C1 counterexample.**  On a 2×2 grid, the east neighbour slot of the
last-column cell (1,1) is NULL, not the cell itself as the claim states. -/
theorem candidatesAt_high_edge_not_self :
    (candidatesAt 2 2 1 1).getD 2 none ≠ some (1, 1) := by decide

/-- **C6 (confirmed).**  For `ΔΦmax > 0` the capture chance is exactly `0`
when the predator is not strictly fitter, exactly `(p − q)/ΔΦmax` when the
gap lies strictly between `0` and `ΔΦmax`, and exactly `1` when the gap
reaches `ΔΦmax`. -/
theorem captureChance_spec (p q d : ℚ) (hd : 0 < d) :
    (p ≤ q → captureChance p q d = 0) ∧
    (0 < p - q → p - q < d → captureChance p q d = (p - q) / d) ∧
    (d ≤ p - q → captureChance p q d = 1) := by
  refine ⟨?_, ?_, ?_⟩
  · intro h; simp [captureChance, h]
  · intro h1 h2
    have hpq : ¬ p ≤ q := by linarith
    simp [captureChance, hpq, h1, h2]
  · intro h
    have hpq : ¬ p ≤ q := by linarith
    have : ¬ (d > p - q ∧ p - q > 0) := by
      rintro ⟨h1, -⟩; linarith
    simp only [captureChance, if_neg hpq, if_neg this]

/-- **C6 witness.**  The two scenarios from the spec: equal fitness at
`ΔΦmax = 10` gives `0`; gap `0.8` against `ΔΦmax = 0.5` saturates to `1`;
and a strictly intermediate gap gives the ratio. -/
theorem captureChance_spec_witness :
    captureChance (9/10) (9/10) 10 = 0 ∧
    captureChance (9/10) (1/10) (1/2) = 1 ∧
    captureChance (9/10) (1/10) 2 = (9/10 - 1/10) / 2 := by
  refine ⟨?_, ?_, ?_⟩
  · exact (captureChance_spec (9/10) (9/10) 10 (by norm_num)).1 (by norm_num)
  · exact (captureChance_spec (9/10) (1/10) (1/2) (by norm_num)).2.2 (by norm_num)
  · exact (captureChance_spec (9/10) (1/10) 2 (by norm_num)).2.1 (by norm_num) (by norm_num)

/-- **C7 (confirmed).**  `Cell::graze` grants exactly `min(feed, F)`,
leaves `feed − min(feed, F)` (never negative when the cell started
nonnegative), and the herbivore branch of `Species::feed` fattens the
animal by exactly `beta · min(feed, F)`. -/
theorem graze_spec (fitFn : FitFn) (w : World) (b : Beast) (ci : Nat)
    (rng : List ℚ) (hloc : b.loci = some ci)
    (hherb : (w.species.getD b.isa dfltSpecies).predatory = false)
    (hfeed : 0 ≤ (w.cells.getD ci zombieCell).feed) :
    let sp := w.species.getD b.isa dfltSpecies
    let c := w.cells.getD ci zombieCell
    ((c.graze sp.F).1 = min c.feed sp.F) ∧
    ((c.graze sp.F).2.feed = c.feed - min c.feed sp.F) ∧
    (0 ≤ (c.graze sp.F).2.feed) ∧
    (speciesFeedSem fitFn w b rng =
      some ([b.id],
        (w.setBeast { b with vekt := b.vekt + sp.beta * min c.feed sp.F }).setCell
          ci (c.graze sp.F).2, rng)) := by
  intro sp c
  have hmin : (c.graze sp.F).1 = min c.feed sp.F ∧
      (c.graze sp.F).2.feed = c.feed - min c.feed sp.F ∧ 0 ≤ (c.graze sp.F).2.feed := by
    by_cases h : c.feed ≥ sp.F
    · have hm : min c.feed sp.F = sp.F := min_eq_right h
      refine ⟨by simp [CellSt.graze, h, hm], by simp [CellSt.graze, h, hm], ?_⟩
      simp only [CellSt.graze, if_pos h]
      linarith
    · have hlt : c.feed < sp.F := lt_of_not_ge h
      have hm : min c.feed sp.F = c.feed := min_eq_left hlt.le
      simp [CellSt.graze, h, hm, hfeed]
  refine ⟨hmin.1, hmin.2.1, hmin.2.2, ?_⟩
  simp only [speciesFeedSem, hloc, hherb, Bool.false_eq_true, if_false]
  rw [show (c.graze sp.F).1 = min c.feed sp.F from hmin.1]

/-- **C7 witness.**  The spec scenario: a lone herbivore with feed desire
`F = 10` in a cell holding `6` units ends with the cell at `0` and gains
`beta · 6` weight. -/
theorem graze_spec_witness :
    let w : World :=
      { species := [{ name := "B", predatory := false, v_fod := 8, beta := 9/10,
                      v_min := 10, gamma := 1/5, zeta := 7/2, omega := 2/5,
                      F := 10, deltaPhiMax := -1 }],
        beasts := [{ id := 0, isa := 0, vekt := 20, alder := 1, loci := some 0 }],
        cells := [{ live := true, feed := 6, habitants := [0] }],
        cols := 1, rows := 1 }
    let b : Beast := { id := 0, isa := 0, vekt := 20, alder := 1, loci := some 0 }
    speciesFeedSem (fun _ _ _ => 1) w b [] =
      some ([0],
        (w.setBeast { b with vekt := 20 + (9/10) * 6 }).setCell 0
          { live := true, feed := 0, habitants := [0] }, []) := by
  intro w b
  have h := graze_spec (fun _ _ _ => 1) w b 0 [] rfl (by decide) (by norm_num)
  rw [h.2.2.2]
  norm_num [CellSt.graze, World.setCell]

/-- **C8 (confirmed).**  With the next uniform draw `r ∈ [0, 1)`:
`Animal::die` returns true exactly when the weight is `0` or `r` is below
`deathProbability(fitness)` (which is `1` at nonpositive fitness); at
weight exactly `0` it returns true deterministically without consuming a
draw; on death the animal is removed from its cell's resident set and left
with no location; on survival nothing about the animal or the cells
changes. -/
theorem die_spec (fitFn : FitFn) (sp : SpeciesDef) (b : Beast)
    (cells : List CellSt) (r : ℚ) (rest : List ℚ) (hr0 : 0 ≤ r) (hr1 : r < 1) :
    let res := dieSem fitFn sp b cells (r :: rest)
    ((res.1 = true) ↔
      (b.vekt = 0 ∨ r < deathProbability sp (b.fitness fitFn))) ∧
    (b.vekt = 0 → res.2.2.2 = r :: rest) ∧
    (res.1 = true → res.2.1.loci = none ∧
      ∀ ci, b.loci = some ci → b.id ∉ (res.2.2.1.getD ci zombieCell).habitants) ∧
    (res.1 = false → res.2.1 = b ∧ res.2.2.1 = cells) := by
  intro res
  have hrm : ∀ ci, b.loci = some ci →
      b.id ∉ ((removeFromLoci cells b.loci b.id).getD ci zombieCell).habitants := by
    intro ci hci
    simp only [removeFromLoci, hci]
    rw [List.getD_eq_getElem?_getD, List.getElem?_set]
    by_cases hlt : ci < cells.length
    · simp [hlt, CellSt.removeAnimal]
    · simp [hlt, zombieCell]
  by_cases hv : b.vekt = 0
  · refine ⟨?_, ?_, ?_, ?_⟩
    · simp [res, dieSem, hv]
    · intro _; simp [res, dieSem, hv]
    · intro _
      refine ⟨by simp [res, dieSem, hv], ?_⟩
      intro ci hci
      simpa [res, dieSem, hv] using hrm ci hci
    · intro hfalse
      exfalso
      simp [res, dieSem, hv] at hfalse
  · by_cases hphi : b.fitness fitFn ≤ 0
    · have hres : res.1 = true := by
        simp [res, dieSem, hv, SpeciesDef.dieDraw, hphi]
      refine ⟨?_, ?_, ?_, ?_⟩
      · simp only [hres, true_iff]
        right
        simp [deathProbability, hphi, hr1]
      · intro h; exact absurd h hv
      · intro _
        refine ⟨by simp [res, dieSem, hv, SpeciesDef.dieDraw, hphi], ?_⟩
        intro ci hci
        simpa [res, dieSem, hv, SpeciesDef.dieDraw, hphi] using hrm ci hci
      · intro h; rw [hres] at h; cases h
    · have hdp : deathProbability sp (b.fitness fitFn) =
          sp.omega * (1 - b.fitness fitFn) := by
        simp [deathProbability, hphi]
      by_cases hdraw : r < sp.omega * (1 - b.fitness fitFn)
      · refine ⟨?_, ?_, ?_, ?_⟩
        · simp [res, dieSem, hv, SpeciesDef.dieDraw, hphi, hdraw, hdp]
        · intro h; exact absurd h hv
        · intro _
          refine ⟨by simp [res, dieSem, hv, SpeciesDef.dieDraw, hphi, hdraw], ?_⟩
          intro ci hci
          simpa [res, dieSem, hv, SpeciesDef.dieDraw, hphi, hdraw] using hrm ci hci
        · intro h
          exfalso
          simp [res, dieSem, hv, SpeciesDef.dieDraw, hphi, hdraw] at h
      · refine ⟨?_, ?_, ?_, ?_⟩
        · simp [res, dieSem, hv, SpeciesDef.dieDraw, hphi, hdraw, hdp]
        · intro h; exact absurd h hv
        · intro h
          exfalso
          simp [res, dieSem, hv, SpeciesDef.dieDraw, hphi, hdraw] at h
        · intro _
          simp [res, dieSem, hv, SpeciesDef.dieDraw, hphi, hdraw]

/-- **C8 witness.**  A weight-`0` animal dies deterministically with the
draw list untouched; its cell no longer lists it and it has no location. -/
theorem die_spec_witness :
    let sp : SpeciesDef := { name := "B", predatory := false, v_fod := 8,
                             beta := 9/10, v_min := 10, gamma := 1/5, zeta := 7/2,
                             omega := 2/5, F := 10, deltaPhiMax := -1 }
    let b : Beast := { id := 3, isa := 0, vekt := 0, alder := 2, loci := some 0 }
    let cells : List CellSt := [{ live := true, feed := 1, habitants := [3, 5] }]
    let res := dieSem (fun _ _ _ => 1/2) sp b cells ((1/4) :: [])
    res.1 = true ∧ res.2.2.2 = (1/4) :: [] ∧ res.2.1.loci = none ∧
      3 ∉ (res.2.2.1.getD 0 zombieCell).habitants := by
  intro sp b cells res
  have h := die_spec (fun _ _ _ => 1/2) sp b cells (1/4) [] (by norm_num) (by norm_num)
  refine ⟨h.1.mpr (Or.inl rfl), h.2.1 rfl, ?_, ?_⟩
  · exact (h.2.2.1 (h.1.mpr (Or.inl rfl))).1
  · exact (h.2.2.1 (h.1.mpr (Or.inl rfl))).2 0 rfl

/-- **C10 (confirmed).**  `Species::init` throws exactly when neither `F`
nor `DeltaPhiMax` was supplied (both still the `ANIMAL_INV` sentinel);
when both are supplied the species is classified as a herbivore — `F`
takes precedence and `DeltaPhiMax` is retained but ignored for the
classification — and an unnamed species is auto-named `"R"` when
predatory and `"B"` otherwise. -/
theorem speciesInit_spec (F DeltaPhiMax : ℚ) (name : String) :
    (speciesInit F DeltaPhiMax name = none ↔
      (F = ANIMAL_INV ∧ DeltaPhiMax = ANIMAL_INV)) ∧
    (F ≠ ANIMAL_INV → DeltaPhiMax ≠ ANIMAL_INV →
      ∃ sp, speciesInit F DeltaPhiMax name = some sp ∧
        sp.predatory = false ∧ sp.F = F ∧ sp.deltaPhiMax = DeltaPhiMax) ∧
    (∀ sp, speciesInit F DeltaPhiMax "" = some sp →
      sp.name = if sp.predatory then "R" else "B") := by
  refine ⟨?_, ?_, ?_⟩
  · constructor
    · intro h
      by_cases hF : F = ANIMAL_INV
      · by_cases hD : DeltaPhiMax = ANIMAL_INV
        · exact ⟨hF, hD⟩
        · simp [speciesInit, hF, hD] at h
      · simp [speciesInit, hF] at h
    · rintro ⟨hF, hD⟩
      simp [speciesInit, hF, hD]
  · intro hF _
    exact ⟨{ name := if name = "" then "B" else name, predatory := false,
             v_fod := 0, beta := 0, v_min := 0, gamma := 0, zeta := 0,
             omega := 0, F := F, deltaPhiMax := DeltaPhiMax },
           by simp [speciesInit, hF], rfl, rfl, rfl⟩
  · intro sp h
    by_cases hF : F = ANIMAL_INV
    · by_cases hD : DeltaPhiMax = ANIMAL_INV
      · simp [speciesInit, hF, hD] at h
      · simp only [speciesInit, hF, ne_eq, not_true_eq_false, if_false,
          hD, not_false_eq_true, if_true, Option.some.injEq] at h
        rw [← h]
        rfl
    · simp only [speciesInit, ne_eq, hF, not_false_eq_true, if_true,
        Option.some.injEq] at h
      rw [← h]
      rfl

/-- **C10 witness.**  Concrete instances: both parameters supplied gives an
unnamed herbivore named `"B"` with `DeltaPhiMax` retained; neither supplied
gives the error. -/
theorem speciesInit_spec_witness :
    (∃ sp, speciesInit 10 (1/2) "" = some sp ∧
      sp.predatory = false ∧ sp.F = 10 ∧ sp.deltaPhiMax = 1/2 ∧ sp.name = "B") ∧
    speciesInit (-1) (-1) "x" = none := by
  constructor
  · obtain ⟨sp, hsp, hpred, hF, hD⟩ :=
      (speciesInit_spec 10 (1/2) "").2.1 (by norm_num [ANIMAL_INV]) (by norm_num [ANIMAL_INV])
    have hname := (speciesInit_spec 10 (1/2) "").2.2 sp hsp
    exact ⟨sp, hsp, hpred, hF, hD, by rw [hname, hpred]; rfl⟩
  · exact (speciesInit_spec (-1) (-1) "x").1.mpr ⟨rfl, rfl⟩

/-- **C4 (amended).**  Loading a population record is silently rejected —
`insertAnimal` returns NULL, creating no animal and leaving the caller's
state untouched — in *both* failure cases: when the species name is
unknown (`Simulation::genus` returns NULL, no exception of any kind is
thrown) and when the species is known but the target cell does not exist
or does not accept animals. -/
theorem insertAnimal_reject_spec (w : World) (name : String) (age : Nat)
    (weight : ℚ) (x y : Nat) (nid : Nat) :
    (genusIdx w.species name = none →
      insertAnimalByName w name age weight x y nid = none) ∧
    (∀ si, genusIdx w.species name = some si →
      (w.atIdx x y = none ∨
       (∀ ci, w.atIdx x y = some ci → (w.cells.getD ci zombieCell).live = false)) →
      insertAnimalByName w name age weight x y nid = none) := by
  constructor
  · intro h
    simp [insertAnimalByName, insertAnimal, h]
  · intro si hsi hbad
    simp only [insertAnimalByName, hsi, insertAnimal]
    rcases hbad with h | h
    · simp [vivify, h]
    · cases hat : w.atIdx x y with
      | none => simp [vivify, hat]
      | some ci =>
        have hlive := h ci hat
        rw [List.getD_eq_getElem?_getD] at hlive
        simp [vivify, hat, CellSt.addAnimalQ, hlive]

/-- **C4 counterexample.**  On a concrete world holding only species `"B"`,
a record naming the unknown species `"X"` is *silently* rejected with the
same NULL outcome as a record aimed at a non-accepting cell — no
`LookupError` (or any other error) is raised, contradicting the claim that
the unknown-name case fails with a LookupError while only the bad-cell
case is silent. -/
theorem insertAnimal_unknown_name_silent :
    let w : World :=
      { species := [{ name := "B", predatory := false, v_fod := 8, beta := 9/10,
                      v_min := 10, gamma := 1/5, zeta := 7/2, omega := 2/5,
                      F := 10, deltaPhiMax := -1 }],
        beasts := [],
        cells := [{ live := true, feed := 6, habitants := [] },
                  { live := false, feed := 0, habitants := [] }],
        cols := 2, rows := 1 }
    insertAnimalByName w "X" 5 7 0 0 0 = none ∧
    insertAnimalByName w "B" 5 7 1 0 0 = none ∧
    insertAnimalByName w "B" 5 7 0 0 0 ≠ none := by
  refine ⟨by decide, by decide, by decide⟩

/-- **C4 witness.**  The rejection theorem applied to the same concrete
world for both failure modes. -/
theorem insertAnimal_reject_spec_witness :
    let w : World :=
      { species := [{ name := "B", predatory := false, v_fod := 8, beta := 9/10,
                      v_min := 10, gamma := 1/5, zeta := 7/2, omega := 2/5,
                      F := 10, deltaPhiMax := -1 }],
        beasts := [],
        cells := [{ live := true, feed := 6, habitants := [] },
                  { live := false, feed := 0, habitants := [] }],
        cols := 2, rows := 1 }
    insertAnimalByName w "X" 5 7 0 0 0 = none ∧
    insertAnimalByName w "B" 5 7 9 9 0 = none := by
  intro w
  constructor
  · exact (insertAnimal_reject_spec w "X" 5 7 0 0 0).1 (by decide)
  · exact (insertAnimal_reject_spec w "B" 5 7 9 9 0).2 0 (by decide)
      (Or.inl (by decide))

/-- The `pos = true` factor written without the branch. -/
theorem func_q_true (x x_half phi : ℝ) :
    func_q x x_half phi true = 1 / (1 + Real.exp (phi * (x - x_half))) := by
  simp [func_q]

/-- The `pos = false` factor written without the branch. -/
theorem func_q_false (x x_half phi : ℝ) :
    func_q x x_half phi false = 1 / (1 + Real.exp (-(phi * (x - x_half)))) := by
  simp [func_q]

/-- Each logistic factor lies strictly between 0 and 1. -/
theorem func_q_pos (x x_half phi : ℝ) (pos : Bool) :
    0 < func_q x x_half phi pos := by
  unfold func_q
  positivity

theorem func_q_le_one (x x_half phi : ℝ) (pos : Bool) :
    func_q x x_half phi pos ≤ 1 := by
  unfold func_q
  rw [div_le_one (by positivity)]
  have := Real.exp_pos ((if pos then (1:ℝ) else -1) * phi * (x - x_half))
  linarith

/-- A `pos = true` factor is strictly decreasing in `x` for positive
steepness. -/
theorem func_q_pos_strictAnti (x1 x2 x_half phi : ℝ) (hphi : 0 < phi)
    (h : x1 < x2) : func_q x2 x_half phi true < func_q x1 x_half phi true := by
  rw [func_q_true, func_q_true]
  have hexp : Real.exp (phi * (x1 - x_half)) < Real.exp (phi * (x2 - x_half)) := by
    apply Real.exp_lt_exp.mpr
    nlinarith
  have p1 : (0:ℝ) < 1 + Real.exp (phi * (x1 - x_half)) := by positivity
  apply div_lt_div_of_pos_left one_pos p1
  linarith

/-- A `pos = false` factor is strictly increasing in `x` for positive
steepness. -/
theorem func_q_neg_strictMono (x1 x2 x_half phi : ℝ) (hphi : 0 < phi)
    (h : x1 < x2) : func_q x1 x_half phi false < func_q x2 x_half phi false := by
  rw [func_q_false, func_q_false]
  have hexp : Real.exp (-(phi * (x2 - x_half))) < Real.exp (-(phi * (x1 - x_half))) := by
    apply Real.exp_lt_exp.mpr
    nlinarith
  have p1 : (0:ℝ) < 1 + Real.exp (-(phi * (x2 - x_half))) := by positivity
  apply div_lt_div_of_pos_left one_pos p1
  linarith

/-- With positive age steepness, fitness at fixed viable weight strictly
drops as age rises. -/
theorem speciesFitness_anti_age (sp : FitParams) (weight age age2 : ℝ)
    (hphi : 0 < sp.phi_alder) (hlt : age < age2) (h : ¬ weight < sp.v_min) :
    speciesFitness sp weight age2 < speciesFitness sp weight age := by
  simp only [speciesFitness, if_neg h]
  have hfa := func_q_pos_strictAnti age age2 sp.a_halv sp.phi_alder hphi hlt
  have h2 := func_q_pos weight sp.v_halv_under sp.phi_under false
  have h3 := func_q_pos weight sp.v_halv_over sp.phi_over true
  have hbc := mul_pos h2 h3
  calc func_q age2 sp.a_halv sp.phi_alder true *
        func_q weight sp.v_halv_under sp.phi_under false *
        func_q weight sp.v_halv_over sp.phi_over true
      = func_q age2 sp.a_halv sp.phi_alder true *
        (func_q weight sp.v_halv_under sp.phi_under false *
         func_q weight sp.v_halv_over sp.phi_over true) := by ring
    _ < func_q age sp.a_halv sp.phi_alder true *
        (func_q weight sp.v_halv_under sp.phi_under false *
         func_q weight sp.v_halv_over sp.phi_over true) :=
          mul_lt_mul_of_pos_right hfa hbc
    _ = func_q age sp.a_halv sp.phi_alder true *
        func_q weight sp.v_halv_under sp.phi_under false *
        func_q weight sp.v_halv_over sp.phi_over true := by ring

/-- **C5 (amended).**  `fitness(weight, age)` returns `0` whenever
`weight < minWeight`; otherwise it is the product of exactly three
logistic factors `1 / (1 + exp(± steepness · (x − midpoint)))`, and the
result always lies in `[0, 1]`.  However, for positive steepness
parameters the directions are the opposite of the claim's: the age factor
(`pos = true`) is strictly *decreasing* in age, the underweight factor
(`pos = false`) is strictly *increasing* in weight, and the overweight
factor (`pos = true`) is strictly *decreasing* in weight. -/
theorem speciesFitness_spec (sp : FitParams) (weight age : ℝ) :
    (weight < sp.v_min → speciesFitness sp weight age = 0) ∧
    (¬ weight < sp.v_min →
      speciesFitness sp weight age =
        func_q age sp.a_halv sp.phi_alder true *
        func_q weight sp.v_halv_under sp.phi_under false *
        func_q weight sp.v_halv_over sp.phi_over true) ∧
    (0 ≤ speciesFitness sp weight age ∧ speciesFitness sp weight age ≤ 1) ∧
    (∀ age2, 0 < sp.phi_alder → age < age2 → ¬ weight < sp.v_min →
      speciesFitness sp weight age2 < speciesFitness sp weight age) := by
  refine ⟨?_, ?_, ?_, ?_⟩
  · intro h; simp [speciesFitness, h]
  · intro h; simp [speciesFitness, h]
  · by_cases h : weight < sp.v_min
    · simp [speciesFitness, h]
    · simp only [speciesFitness, if_neg h]
      constructor
      · have := func_q_pos age sp.a_halv sp.phi_alder true
        have := func_q_pos weight sp.v_halv_under sp.phi_under false
        have := func_q_pos weight sp.v_halv_over sp.phi_over true
        positivity
      · have h1 := func_q_pos age sp.a_halv sp.phi_alder true
        have h2 := func_q_pos weight sp.v_halv_under sp.phi_under false
        have h3 := func_q_pos weight sp.v_halv_over sp.phi_over true
        have u1 := func_q_le_one age sp.a_halv sp.phi_alder true
        have u2 := func_q_le_one weight sp.v_halv_under sp.phi_under false
        have u3 := func_q_le_one weight sp.v_halv_over sp.phi_over true
        nlinarith [mul_pos h1 h2, mul_le_one₀ u1 h2.le u2]
  · intro age2 hphi hlt h
    exact speciesFitness_anti_age sp weight age age2 hphi hlt h

/-- **C5 witness.**  The amended theorem applied at concrete parameters:
with all steepness values `1`, midpoints `0` and `v_min = 0`, fitness at
weight `1` strictly drops from age `0` to age `1`, and the value lies in
`[0, 1]`. -/
theorem speciesFitness_spec_witness :
    let sp : FitParams := { v_min := 0, a_halv := 0, phi_alder := 1,
                            v_halv_under := 0, phi_under := 1,
                            v_halv_over := 0, phi_over := 1 }
    speciesFitness sp 1 1 < speciesFitness sp 1 0 ∧
    0 ≤ speciesFitness sp 1 0 ∧ speciesFitness sp 1 0 ≤ 1 := by
  intro sp
  refine ⟨?_, (speciesFitness_spec sp 1 0).2.2.1⟩
  exact (speciesFitness_spec sp 1 0).2.2.2 1 one_pos one_pos (by norm_num)

/-- **C5 counterexample.**  At the same concrete parameters (positive
steepness everywhere), fitness with fixed weight `1 ≥ minWeight` is
strictly *smaller* at age `1` than at age `0` — the only age-dependent
factor of `Species::fitness` is strictly decreasing in age, contradicting
the claim that one factor is increasing in age. -/
theorem speciesFitness_age_decreasing :
    speciesFitness { v_min := 0, a_halv := 0, phi_alder := 1,
                     v_halv_under := 0, phi_under := 1,
                     v_halv_over := 0, phi_over := 1 } 1 1 <
    speciesFitness { v_min := 0, a_halv := 0, phi_alder := 1,
                     v_halv_under := 0, phi_under := 1,
                     v_halv_over := 0, phi_over := 1 } 1 0 := by
  exact speciesFitness_anti_age _ 1 0 1 one_pos one_pos (by norm_num)

/-! ## List helpers -/
theorem getD_set_eq {α : Type _} (l : List α) (i : Nat) (a d : α)
    (h : i < l.length) : (l.set i a).getD i d = a := by
  rw [List.getD_eq_getElem?_getD, List.getElem?_set]
  simp [h]

theorem getD_set_ne {α : Type _} (l : List α) (i j : Nat) (a d : α)
    (h : i ≠ j) : (l.set i a).getD j d = l.getD j d := by
  rw [List.getD_eq_getElem?_getD, List.getElem?_set, if_neg h,
    ← List.getD_eq_getElem?_getD]

theorem set_getD_self {α : Type _} (l : List α) (i : Nat) (d : α)
    (h : i < l.length) : l.set i (l.getD i d) = l := by
  apply List.ext_getElem?
  intro j
  rw [List.getElem?_set]
  by_cases hij : i = j
  · subst hij
    simp [h, List.getD_eq_getElem?_getD, List.getElem?_eq_getElem h]
  · simp [hij]

theorem length_set_cells {α : Type _} (l : List α) (i : Nat) (a : α) :
    (l.set i a).length = l.length := by simp

theorem mem_insertId (x id : Nat) (l : List Nat) :
    x ∈ insertId id l ↔ x ∈ l ∨ x = id := by
  unfold insertId
  by_cases h : id ∈ l
  · simp only [if_pos h]
    constructor
    · exact Or.inl
    · rintro (hx | rfl)
      · exact hx
      · exact h
  · simp [if_neg h, or_comm]

theorem nodup_insertId (id : Nat) (l : List Nat) (h : l.Nodup) :
    (insertId id l).Nodup := by
  unfold insertId
  by_cases hm : id ∈ l
  · simpa [hm]
  · rw [if_neg hm]
    refine List.Nodup.append h (List.nodup_singleton id) ?_
    intro a ha hmem
    rw [List.mem_singleton] at hmem
    subst hmem
    exact hm ha

theorem map_id_replaceBeast (l : List Beast) (b : Beast) :
    (replaceBeast l b).map Beast.id = l.map Beast.id := by
  unfold replaceBeast
  rw [List.map_map]
  apply List.map_congr_left
  intro x _
  by_cases h : x.id = b.id
  · simp [h]
  · simp [h]

theorem mem_replaceBeast {l : List Beast} {b x : Beast} (hx : x ∈ l) :
    (if x.id = b.id then b else x) ∈ replaceBeast l b :=
  List.mem_map_of_mem _ hx

theorem replaceBeast_self {l : List Beast} {b : Beast}
    (hnd : (l.map Beast.id).Nodup) (hb : b ∈ l) : replaceBeast l b = l := by
  unfold replaceBeast
  have hcongr : ∀ x ∈ l, (if x.id = b.id then b else x) = id x := by
    intro x hx
    by_cases h : x.id = b.id
    · rw [if_pos h, id_def, List.inj_on_of_nodup_map hnd hx hb h]
    · rw [if_neg h, id_def]
  rw [List.map_congr_left hcongr, List.map_id]

theorem find?_eq_of_nodup_mem {l : List Beast} {b : Beast}
    (hnd : (l.map Beast.id).Nodup) (hb : b ∈ l) :
    l.find? (fun x => x.id = b.id) = some b := by
  induction l with
  | nil => cases hb
  | cons y ys ih =>
    rw [List.map_cons, List.nodup_cons] at hnd
    rcases List.mem_cons.mp hb with rfl | hb2
    · rw [List.find?_cons_of_pos]
      simp
    · have hyb : ¬ y.id = b.id := by
        intro h
        exact hnd.1 (h ▸ List.mem_map_of_mem Beast.id hb2)
      rw [List.find?_cons_of_neg]
      · exact ih hnd.2 hb2
      · simpa using hyb

/-- Computation of `moveToSem` into a live destination. -/
theorem moveToSem_live (b : Beast) (cells : List CellSt) (d : Nat)
    (hlive : (cells.getD d zombieCell).live = true) :
    moveToSem b cells (some d) =
      (true, { b with loci := some d },
       moveCells b cells d) := by
  simp only [moveToSem, moveCells, hlive, if_true]

/-- A destination that refuses entry leaves everything unchanged. -/
theorem moveToSem_dead (b : Beast) (cells : List CellSt) (d : Nat)
    (hlive : (cells.getD d zombieCell).live = false) :
    moveToSem b cells (some d) = (false, b, cells) := by
  simp only [moveToSem, hlive]
  simp

theorem moveCells_none (b : Beast) (cells : List CellSt) (d : Nat)
    (h : b.loci = none) : moveCells b cells d = insCell b cells d := by
  unfold moveCells insCell
  rw [h]

theorem moveCells_some (b : Beast) (cells : List CellSt) (d old : Nat)
    (h : b.loci = some old) :
    moveCells b cells d =
      if old = d then insCell b cells d
      else (insCell b cells d).set old
        (((insCell b cells d).getD old zombieCell).removeAnimal b.id) := by
  unfold moveCells insCell
  rw [h]

theorem length_insCell (b : Beast) (cells : List CellSt) (d : Nat) :
    (insCell b cells d).length = cells.length := by
  simp [insCell]

theorem insCell_getD_eq (b : Beast) (cells : List CellSt) (d : Nat)
    (hd : d < cells.length) :
    (insCell b cells d).getD d zombieCell =
      { cells.getD d zombieCell with
          habitants := insertId b.id (cells.getD d zombieCell).habitants } :=
  getD_set_eq _ _ _ _ hd

theorem insCell_getD_ne (b : Beast) (cells : List CellSt) (d j : Nat)
    (h : j ≠ d) :
    (insCell b cells d).getD j zombieCell = cells.getD j zombieCell :=
  getD_set_ne _ _ _ _ _ (fun hh => h hh.symm)

theorem length_moveCells (b : Beast) (cells : List CellSt) (d : Nat) :
    (moveCells b cells d).length = cells.length := by
  cases hbl : b.loci with
  | none => rw [moveCells_none b cells d hbl, length_insCell]
  | some old =>
    rw [moveCells_some b cells d old hbl]
    by_cases h : old = d
    · rw [if_pos h, length_insCell]
    · rw [if_neg h]
      simp [length_insCell]

theorem moveCells_getD_dest (b : Beast) (cells : List CellSt) (d : Nat)
    (hd : d < cells.length) :
    (moveCells b cells d).getD d zombieCell =
      { cells.getD d zombieCell with
          habitants := insertId b.id (cells.getD d zombieCell).habitants } := by
  cases hbl : b.loci with
  | none => rw [moveCells_none b cells d hbl]; exact insCell_getD_eq b cells d hd
  | some old =>
    rw [moveCells_some b cells d old hbl]
    by_cases hod : old = d
    · rw [if_pos hod]; exact insCell_getD_eq b cells d hd
    · rw [if_neg hod, getD_set_ne _ _ _ _ _ hod]
      exact insCell_getD_eq b cells d hd

theorem moveCells_getD_old (b : Beast) (cells : List CellSt) (d old : Nat)
    (hbl : b.loci = some old) (hod : old ≠ d) (hol : old < cells.length) :
    (moveCells b cells d).getD old zombieCell =
      (cells.getD old zombieCell).removeAnimal b.id := by
  rw [moveCells_some b cells d old hbl, if_neg hod,
    getD_set_eq _ _ _ _ (by rw [length_insCell]; exact hol),
    insCell_getD_ne b cells d old hod]

theorem moveCells_getD_other (b : Beast) (cells : List CellSt) (d j : Nat)
    (hjd : j ≠ d) (hjo : ∀ old, b.loci = some old → j ≠ old) :
    (moveCells b cells d).getD j zombieCell = cells.getD j zombieCell := by
  cases hbl : b.loci with
  | none => rw [moveCells_none b cells d hbl]; exact insCell_getD_ne b cells d j hjd
  | some old =>
    rw [moveCells_some b cells d old hbl]
    by_cases hod : old = d
    · rw [if_pos hod]; exact insCell_getD_ne b cells d j hjd
    · rw [if_neg hod,
        getD_set_ne _ _ _ _ _ (fun h => (hjo old hbl) h.symm),
        insCell_getD_ne b cells d j hjd]

/-- A successful move into a live cell preserves the invariant. -/
theorem WInv_moveCells (w : World) (b : Beast) (d : Nat)
    (hinv : WInv w) (hb : b ∈ w.beasts)
    (hlive : (w.cells.getD d zombieCell).live = true) :
    WInv { w with beasts := replaceBeast w.beasts { b with loci := some d },
                  cells := moveCells b w.cells d } := by
  obtain ⟨hnd, hhn, hmem, hlv, hrec⟩ := hinv
  have hd : d < w.cells.length := by
    by_contra hcon
    rw [List.getD_eq_default _ _ (Nat.le_of_not_lt hcon)] at hlive
    exact Bool.false_ne_true hlive
  have hold : ∀ old, b.loci = some old → old < w.cells.length := by
    intro old hbl
    rcases hlv b hb with h | ⟨ci, hci, hcieq, -⟩
    · rw [h] at hbl; cases hbl
    · rw [hbl] at hcieq; cases hcieq; exact hci
  have hinj := List.inj_on_of_nodup_map hnd
  -- membership in the updated cell array, one characterization per index kind
  have hhab : ∀ j < w.cells.length, ∀ idx : Nat,
      (idx ∈ ((moveCells b w.cells d).getD j zombieCell).habitants ↔
        ((idx ∈ (w.cells.getD j zombieCell).habitants ∧
          ¬ (idx = b.id ∧ b.loci = some j ∧ j ≠ d)) ∨ (idx = b.id ∧ j = d))) := by
    intro j hj idx
    by_cases hjd : j = d
    · subst hjd
      rw [moveCells_getD_dest b w.cells j hd]
      simp only [mem_insertId]
      constructor
      · rintro (h | h)
        · exact Or.inl ⟨h, by rintro ⟨-, -, hne⟩; exact hne rfl⟩
        · exact Or.inr ⟨h, trivial⟩
      · rintro (⟨h, -⟩ | ⟨h, -⟩)
        · exact Or.inl h
        · exact Or.inr h
    · by_cases hjold : ∃ old, b.loci = some old ∧ j = old
      · obtain ⟨old, hbl, rfl⟩ := hjold
        rw [moveCells_getD_old b w.cells d j hbl hjd (hold j hbl)]
        simp only [CellSt.removeAnimal, List.mem_filter, ne_eq, decide_not,
          Bool.not_eq_eq_eq_not, Bool.not_true, decide_eq_false_iff_not]
        constructor
        · rintro ⟨h, hne⟩
          exact Or.inl ⟨h, by rintro ⟨hc, -, -⟩; exact hne hc⟩
        · rintro (⟨h, hne⟩ | ⟨-, h⟩)
          · exact ⟨h, fun hcon => hne ⟨hcon, hbl, hjd⟩⟩
          · exact absurd h hjd
      · push_neg at hjold
        rw [moveCells_getD_other b w.cells d j hjd
          (fun old hbl => hjold old hbl)]
        constructor
        · intro h
          refine Or.inl ⟨h, ?_⟩
          rintro ⟨-, hbl, -⟩
          exact (hjold j hbl) rfl
        · rintro (⟨h, -⟩ | ⟨-, h⟩)
          · exact h
          · exact absurd h hjd
  refine ⟨?_, ?_, ?_, ?_, ?_⟩
  · simpa [map_id_replaceBeast] using hnd
  · intro ci hci
    rw [length_moveCells] at hci
    by_cases hcd : ci = d
    · subst hcd
      rw [moveCells_getD_dest b w.cells ci hd]
      exact nodup_insertId _ _ (hhn ci hci)
    · by_cases hcold : ∃ old, b.loci = some old ∧ ci = old
      · obtain ⟨old, hbl, rfl⟩ := hcold
        rw [moveCells_getD_old b w.cells d ci hbl hcd (hold ci hbl)]
        exact (hhn ci hci).filter _
      · push_neg at hcold
        rw [moveCells_getD_other b w.cells d ci hcd
          (fun old hbl => hcold old hbl)]
        exact hhn ci hci
  · intro x hx ci hci
    rw [length_moveCells] at hci
    rw [hhab ci hci x.id]
    obtain ⟨x0, hx0, hx0e⟩ := List.mem_map.mp hx
    by_cases hxb : x0.id = b.id
    · have hx0b : b = x0 := (hinj hx0 hb hxb).symm
      subst hx0b
      rw [if_pos rfl] at hx0e
      subst hx0e
      constructor
      · rintro (⟨hin, hne⟩ | ⟨-, rfl⟩)
        · by_cases hcd : ci = d
          · rw [hcd]
          · exact absurd ⟨rfl, (hmem b hb ci hci).mp hin, hcd⟩ hne
        · rfl
      · intro h
        have hdc : d = ci := by simpa using h
        exact Or.inr ⟨rfl, hdc.symm⟩
    · rw [if_neg hxb] at hx0e
      subst hx0e
      rw [← hmem x0 hx0 ci hci]
      constructor
      · rintro (⟨h, -⟩ | ⟨h, -⟩)
        · exact h
        · exact absurd h hxb
      · intro h
        exact Or.inl ⟨h, by rintro ⟨hc, -, -⟩; exact hxb hc⟩
  · intro x hx
    obtain ⟨x0, hx0, hx0e⟩ := List.mem_map.mp hx
    by_cases hxb : x0.id = b.id
    · have hx0b : b = x0 := (hinj hx0 hb hxb).symm
      subst hx0b
      rw [if_pos rfl] at hx0e
      subst hx0e
      right
      refine ⟨d, by rw [length_moveCells]; exact hd, rfl, ?_⟩
      rw [moveCells_getD_dest b w.cells d hd]
      exact hlive
    · rw [if_neg hxb] at hx0e
      subst hx0e
      rcases hlv x0 hx0 with h | ⟨ci, hci, hcieq, hclive⟩
      · exact Or.inl h
      · right
        refine ⟨ci, by rw [length_moveCells]; exact hci, hcieq, ?_⟩
        by_cases hcd : ci = d
        · subst hcd
          rw [moveCells_getD_dest b w.cells ci hd]
          exact hlive
        · by_cases hcold : ∃ old, b.loci = some old ∧ ci = old
          · obtain ⟨old, hbl, rfl⟩ := hcold
            rw [moveCells_getD_old b w.cells d ci hbl hcd (hold ci hbl)]
            exact hclive
          · push_neg at hcold
            rw [moveCells_getD_other b w.cells d ci hcd
              (fun old hbl => hcold old hbl)]
            exact hclive
  · intro ci hci id hid
    rw [length_moveCells] at hci
    rw [hhab ci hci id] at hid
    have hrec' : ∀ idx, idx ∈ (w.cells.getD ci zombieCell).habitants →
        ∃ x ∈ replaceBeast w.beasts { b with loci := some d }, x.id = idx := by
      intro idx hidx
      obtain ⟨x0, hx0, hx0id⟩ := hrec ci hci idx hidx
      refine ⟨if x0.id = b.id then { b with loci := some d } else x0,
        mem_replaceBeast hx0, ?_⟩
      by_cases h : x0.id = b.id
      · rw [if_pos h]
        rw [← hx0id, h]
      · rw [if_neg h]; exact hx0id
    rcases hid with ⟨h, -⟩ | ⟨rfl, -⟩
    · exact hrec' id h
    · have hmm := @mem_replaceBeast w.beasts { b with loci := some d } b hb
      rw [if_pos rfl] at hmm
      exact ⟨{ b with loci := some d }, hmm, rfl⟩

/-- **C9 (confirmed).**  `Animal::moveTo` preserves the mutual cell/animal
membership invariant for every destination; a NULL destination and a
destination that refuses entry (non-participating terrain) change no state
at all; a move to the animal's own cell succeeds trivially with the world
unchanged; and a successful move to a live cell inserts the animal into
the destination's resident set, removes it from its old cell's resident
set, and updates its location, all in the same step. -/
theorem moveTo_spec (w : World) (aid : Nat) (dest : Option Nat) (b : Beast)
    (hinv : WInv w) (hfind : w.findBeast aid = some b) :
    (WInv (w.moveTo aid dest).2) ∧
    (w.moveTo aid none = (false, w)) ∧
    (∀ d, dest = some d → (w.cells.getD d zombieCell).live = false →
      w.moveTo aid dest = (false, w)) ∧
    (∀ d, dest = some d → b.loci = some d → w.moveTo aid dest = (true, w)) ∧
    (∀ d, dest = some d → (w.cells.getD d zombieCell).live = true →
      (w.moveTo aid dest).1 = true ∧
      ((w.moveTo aid dest).2.findBeast aid = some { b with loci := some d }) ∧
      (b.id ∈ ((w.moveTo aid dest).2.cells.getD d zombieCell).habitants) ∧
      (∀ old, b.loci = some old → old ≠ d →
        b.id ∉ ((w.moveTo aid dest).2.cells.getD old zombieCell).habitants)) := by
  have hnd := hinv.1
  have hmem := hinv.2.2.1
  have hlv := hinv.2.2.2.1
  have hbmem : b ∈ w.beasts := List.mem_of_find?_eq_some hfind
  have hbid : b.id = aid := by simpa using List.find?_some hfind
  have hmv : ∀ dst, w.moveTo aid dst =
      ((moveToSem b w.cells dst).1,
       { w with beasts := replaceBeast w.beasts (moveToSem b w.cells dst).2.1,
                cells := (moveToSem b w.cells dst).2.2 }) := by
    intro dst
    simp only [World.moveTo, hfind]
  have hnomove : ∀ dst, moveToSem b w.cells dst = (false, b, w.cells) →
      w.moveTo aid dst = (false, w) := by
    intro dst hsem
    rw [hmv dst, hsem]
    rw [replaceBeast_self hnd hbmem]
  have hnone : w.moveTo aid none = (false, w) := hnomove none rfl
  refine ⟨?_, hnone, ?_, ?_, ?_⟩
  · cases dest with
    | none => rw [hnone]; exact hinv
    | some d =>
      by_cases hlive : (w.cells.getD d zombieCell).live = true
      · rw [hmv (some d), moveToSem_live b w.cells d hlive]
        exact WInv_moveCells w b d hinv hbmem hlive
      · have hf : (w.cells.getD d zombieCell).live = false := by
          simpa using hlive
        rw [hnomove (some d) (moveToSem_dead b w.cells d hf)]
        exact hinv
  · intro d hdst hdead
    subst hdst
    exact hnomove (some d) (moveToSem_dead b w.cells d hdead)
  · intro d hdst hbl
    subst hdst
    have hlive : (w.cells.getD d zombieCell).live = true := by
      rcases hlv b hbmem with h | ⟨ci, hci, hcieq, hclive⟩
      · rw [h] at hbl; cases hbl
      · rw [hbl] at hcieq
        cases hcieq
        exact hclive
    have hd : d < w.cells.length := by
      by_contra hcon
      rw [List.getD_eq_default _ _ (Nat.le_of_not_lt hcon)] at hlive
      exact Bool.false_ne_true hlive
    rw [hmv (some d), moveToSem_live b w.cells d hlive]
    have hidin : b.id ∈ (w.cells.getD d zombieCell).habitants :=
      (hmem b hbmem d hd).mpr hbl
    have hins : insertId b.id (w.cells.getD d zombieCell).habitants =
        (w.cells.getD d zombieCell).habitants := by
      unfold insertId
      rw [if_pos hidin]
    have hceq : moveCells b w.cells d = w.cells := by
      rw [moveCells_some b w.cells d d hbl, if_pos rfl]
      unfold insCell
      rw [hins]
      exact set_getD_self w.cells d zombieCell hd
    have hbeq : { b with loci := some d } = b := by
      rw [← hbl]
    rw [hceq, hbeq, replaceBeast_self hnd hbmem]
  · intro d hdst hlive
    subst hdst
    have hd : d < w.cells.length := by
      by_contra hcon
      rw [List.getD_eq_default _ _ (Nat.le_of_not_lt hcon)] at hlive
      exact Bool.false_ne_true hlive
    rw [hmv (some d), moveToSem_live b w.cells d hlive]
    refine ⟨rfl, ?_, ?_, ?_⟩
    · show World.findBeast _ aid = _
      unfold World.findBeast
      have hnd' : ((replaceBeast w.beasts { b with loci := some d }).map
          Beast.id).Nodup := by
        rw [map_id_replaceBeast]; exact hnd
      have hmm := @mem_replaceBeast w.beasts { b with loci := some d } b hbmem
      rw [if_pos rfl] at hmm
      have hres := find?_eq_of_nodup_mem hnd' hmm
      rw [← hbid]
      exact hres
    · rw [moveCells_getD_dest b w.cells d hd]
      exact (mem_insertId b.id b.id _).mpr (Or.inr rfl)
    · intro old hbl hod
      have hol : old < w.cells.length := by
        rcases hlv b hbmem with h | ⟨ci, hci, hcieq, -⟩
        · rw [h] at hbl; cases hbl
        · rw [hbl] at hcieq; cases hcieq; exact hci
      rw [moveCells_getD_old b w.cells d old hbl hod hol]
      simp [CellSt.removeAnimal]

/-- **C9 witness.**  The theorem applied to a concrete two-cell world: the
move of animal 5 from cell 0 to the live cell 1 succeeds, preserves the
invariant, adds it to cell 1's residents and removes it from cell 0's. -/
theorem moveTo_spec_witness :
    let w : World := { species := [],
                       beasts := [{ id := 5, isa := 0, vekt := 3, alder := 1,
                                    loci := some 0 }],
                       cells := [{ live := true, feed := 0, habitants := [5] },
                                 { live := true, feed := 2, habitants := [] }],
                       cols := 2, rows := 1 }
    WInv (w.moveTo 5 (some 1)).2 ∧ (w.moveTo 5 (some 1)).1 = true ∧
      5 ∈ ((w.moveTo 5 (some 1)).2.cells.getD 1 zombieCell).habitants ∧
      5 ∉ ((w.moveTo 5 (some 1)).2.cells.getD 0 zombieCell).habitants := by
  intro w
  have hinv : WInv w := by
    refine ⟨by decide, by decide, by decide, by decide, by decide⟩
  have hfind : w.findBeast 5 =
      some { id := 5, isa := 0, vekt := 3, alder := 1, loci := some 0 } := by rfl
  have h := moveTo_spec w 5 (some 1)
    { id := 5, isa := 0, vekt := 3, alder := 1, loci := some 0 } hinv hfind
  have h5 := h.2.2.2.2 1 rfl (by rfl)
  exact ⟨h.1, h5.1, h5.2.2.1, h5.2.2.2 0 rfl (by decide)⟩

/-- **C3 counterexample.**  Two live cells, two breeding parents in cell 0,
a two-cell traversal `[0, 1]`.  After the pass has processed only cell 0
(the state `breedPassUpTo … [0]`), the newborn with identifier 2 is
already a member of cell 0's resident set *and* of the global population,
although the pass over `[0, 1]` has not completed — contradicting the
claim that offspring are merged into the global population and their
cells' resident sets only after the entire pass completes.  (The newborn
enters its cell at construction, `new Animal(isa, _loci)` → `moveTo`; it
enters the global set when its own cell's `breed` returns, not after the
pass.) -/
theorem breeding_not_buffered :
    let w : World := { species := [{ name := "B", predatory := false,
                                     v_fod := 5, beta := 1, v_min := 1,
                                     gamma := 1, zeta := 0, omega := 0,
                                     F := 10, deltaPhiMax := -1 }],
                       beasts := [{ id := 0, isa := 0, vekt := 10, alder := 1,
                                    loci := some 0 },
                                  { id := 1, isa := 0, vekt := 10, alder := 1,
                                    loci := some 0 }],
                       cells := [{ live := true, feed := 0, habitants := [0, 1] },
                                 { live := true, feed := 0, habitants := [] }],
                       cols := 2, rows := 1 }
    let st0 : BreedSt := { w := w, buf := [], rng := [0, 0], nid := 2 }
    let st1 := breedPassUpTo (fun _ _ _ => 1) [0] st0 [0]
    (2 ∈ (st1.w.cells.getD 0 zombieCell).habitants) ∧
    (∃ nb ∈ st1.w.beasts, nb.id = 2 ∧ nb.alder = 0) ∧
    (breedPassUpTo (fun _ _ _ => 1) [0] st0 [0, 1] =
      breedStep (fun _ _ _ => 1) [0] st1 1) := by
  refine ⟨?_, ?_, rfl⟩ <;>
    norm_num [breedPassUpTo, breedStep, cellBreed, breedSpecies, breedAttempt,
      cellMates, mateP, BreedSt.heap, SpeciesDef.birthChance, SpeciesDef.canBreed,
      SpeciesDef.birthloss, Beast.fitness, moveToSem, insertId, replaceBeast,
      zombieCell, List.find?, List.filter, List.foldl]

theorem find?_replaceBeast (l : List Beast) (p : Beast) (id : Nat) :
    (replaceBeast l p).find? (fun x => x.id = id) =
      (l.find? (fun x => x.id = id)).map (fun b => if b.id = p.id then p else b) := by
  induction l with
  | nil => rfl
  | cons y ys ih =>
    have hid : (if y.id = p.id then p else y).id = y.id := by
      by_cases h : y.id = p.id
      · rw [if_pos h, ← h]
      · rw [if_neg h]
    unfold replaceBeast at ih ⊢
    rw [List.map_cons]
    by_cases hy : y.id = id
    · rw [List.find?_cons_of_pos _ (by simp only [hid, decide_eq_true_eq]; exact hy),
        List.find?_cons_of_pos _ (by simpa using hy)]
      rfl
    · rw [List.find?_cons_of_neg _ (by simp only [hid, decide_eq_true_eq]; exact hy),
        List.find?_cons_of_neg _ (by simpa using hy), ih]

theorem find?_id_eq_none (l : List Beast) (id : Nat)
    (h : ∀ b ∈ l, b.id ≠ id) : l.find? (fun x => x.id = id) = none := by
  rw [List.find?_eq_none]
  intro x hx
  simpa using h x hx

theorem mateP_congr (heap1 heap2 : List Beast) (spIdx minAge id : Nat)
    (h : heapView heap1 id = heapView heap2 id) :
    mateP heap1 spIdx minAge id = mateP heap2 spIdx minAge id := by
  unfold mateP
  unfold heapView at h
  cases h1 : heap1.find? (fun x => x.id = id) with
  | none =>
    rw [h1] at h
    cases h2 : heap2.find? (fun x => x.id = id) with
    | none => rfl
    | some c => rw [h2] at h; cases h
  | some b =>
    rw [h1] at h
    cases h2 : heap2.find? (fun x => x.id = id) with
    | none => rw [h2] at h; cases h
    | some c =>
      rw [h2] at h
      simp only [Option.map_some', Option.some.injEq, Prod.mk.injEq] at h
      simp only [h.1, h.2.1]

/-- The result state of a successful `Animal::breed` inside
`Cell::breed`'s loop (see `breedAttempt`). -/
theorem breedAttempt_breed (fitFn : FitFn) (sp : SpeciesDef) (largeN : Nat)
    (st : BreedSt) (aid : Nat) (b : Beast)
    (hf : st.heap.find? (fun x => x.id = aid) = some b)
    (hc : st.rng.headD 0 < sp.birthChance (b.fitness fitFn) largeN)
    (hb : b.alder ≠ 0 ∧ sp.canBreed b.vekt = true) :
    breedAttempt fitFn sp largeN st aid =
      { w := { st.w with
                 beasts := replaceBeast st.w.beasts { b with vekt := b.vekt - sp.birthloss },
                 cells := (moveToSem { id := st.nid, isa := b.isa, vekt := sp.v_fod,
                                       alder := 0, loci := none } st.w.cells b.loci).2.2 },
        buf := replaceBeast st.buf { b with vekt := b.vekt - sp.birthloss } ++
          [(moveToSem { id := st.nid, isa := b.isa, vekt := sp.v_fod,
                        alder := 0, loci := none } st.w.cells b.loci).2.1],
        rng := st.rng.tail, nid := st.nid + 1 } := by
  unfold breedAttempt
  simp only [hf, if_pos hc, if_pos hb]

theorem breedAttempt_nobirth (fitFn : FitFn) (sp : SpeciesDef) (largeN : Nat)
    (st : BreedSt) (aid : Nat) (b : Beast)
    (hf : st.heap.find? (fun x => x.id = aid) = some b)
    (hc : ¬ st.rng.headD 0 < sp.birthChance (b.fitness fitFn) largeN) :
    breedAttempt fitFn sp largeN st aid = { st with rng := st.rng.tail } := by
  unfold breedAttempt
  simp only [hf, if_neg hc]

theorem breedAttempt_nobreed (fitFn : FitFn) (sp : SpeciesDef) (largeN : Nat)
    (st : BreedSt) (aid : Nat) (b : Beast)
    (hf : st.heap.find? (fun x => x.id = aid) = some b)
    (hb : ¬ (b.alder ≠ 0 ∧ sp.canBreed b.vekt = true)) :
    breedAttempt fitFn sp largeN st aid = { st with rng := st.rng.tail } := by
  unfold breedAttempt
  by_cases hc : st.rng.headD 0 < sp.birthChance (b.fitness fitFn) largeN
  · simp only [hf, if_pos hc, if_neg hb]
  · simp only [hf, if_neg hc]

theorem breedAttempt_nofind (fitFn : FitFn) (sp : SpeciesDef) (largeN : Nat)
    (st : BreedSt) (aid : Nat)
    (hf : st.heap.find? (fun x => x.id = aid) = none) :
    breedAttempt fitFn sp largeN st aid = st := by
  unfold breedAttempt
  simp only [hf]

theorem ite_replace_id (x p : Beast) : (if x.id = p.id then p else x).id = x.id := by
  by_cases h : x.id = p.id
  · rw [if_pos h, ← h]
  · rw [if_neg h]

theorem ids_replaceBeast_lt (heap : List Beast) (p : Beast) (nid : Nat)
    (hlt : ∀ x ∈ heap, x.id < nid) :
    ∀ x ∈ replaceBeast heap p, x.id < nid := by
  intro x hx
  obtain ⟨x0, hx0, rfl⟩ := List.mem_map.mp hx
  rw [ite_replace_id]
  exact hlt x0 hx0

theorem or_some_left {α : Type _} (a : α) (o : Option α) :
    (some a).or o = some a := rfl

theorem or_none_left {α : Type _} (o : Option α) :
    (none : Option α).or o = o := rfl

theorem nodup_replace_append (heap : List Beast) (p nb : Beast) (nid : Nat)
    (hnd : (heap.map Beast.id).Nodup) (hlt : ∀ x ∈ heap, x.id < nid)
    (hnb : nb.id = nid) :
    (((replaceBeast heap p ++ [nb]).map Beast.id)).Nodup := by
  rw [List.map_append, map_id_replaceBeast]
  refine List.Nodup.append hnd (by simp) ?_
  intro a ha hmem
  obtain ⟨x0, hx0, rfl⟩ := List.mem_map.mp ha
  simp only [List.map_cons, List.map_nil, List.mem_singleton] at hmem
  have hx0lt := hlt x0 hx0
  rw [hmem, hnb] at hx0lt
  exact absurd hx0lt (lt_irrefl nid)

theorem heapView_replace_append (heap : List Beast) (b p nb : Beast) (nid : Nat)
    (hnd : (heap.map Beast.id).Nodup) (hb : b ∈ heap)
    (hpid : p.id = b.id) (hpisa : p.isa = b.isa) (hpald : p.alder = b.alder)
    (hploc : p.loci = b.loci)
    (hlt : ∀ x ∈ heap, x.id < nid) (hnb : nb.id = nid) :
    ∀ id, id < nid →
      heapView (replaceBeast heap p ++ [nb]) id = heapView heap id := by
  intro id hid
  unfold heapView
  rw [List.find?_append, find?_replaceBeast]
  cases hfind : heap.find? (fun x => x.id = id) with
  | some c =>
    have hcmem : c ∈ heap := List.mem_of_find?_eq_some hfind
    simp only [Option.map_some', or_some_left]
    by_cases hcp : c.id = p.id
    · have hcb : c = b :=
        List.inj_on_of_nodup_map hnd hcmem hb (by rw [hcp, hpid])
      subst hcb
      rw [if_pos hcp]
      simp [hpisa, hpald, hploc]
    · rw [if_neg hcp]
  | none =>
    simp only [Option.map_none', or_none_left]
    rw [find?_id_eq_none]
    · rfl
    · intro x hx
      rw [List.mem_singleton] at hx
      rw [hx, hnb]
      exact Nat.ne_of_gt hid

theorem find?_replace_append_nid (heap : List Beast) (p nb : Beast) (nid : Nat)
    (hlt : ∀ x ∈ heap, x.id < nid) (hnb : nb.id = nid) :
    (replaceBeast heap p ++ [nb]).find? (fun x => x.id = nid) = some nb := by
  rw [List.find?_append, find?_id_eq_none]
  · simp only [Option.none_or]
    rw [List.find?_cons_of_pos]
    simp [hnb]
  · intro x hx
    exact Nat.ne_of_lt (ids_replaceBeast_lt heap p nid hlt x hx)

/-- Replacement by a record that keeps id and loci transfers the
habitant-record component of `BInv`. -/
theorem record_transfer (heap : List Beast) (b p : Beast) (nb : Beast)
    (hnd : (heap.map Beast.id).Nodup) (hb : b ∈ heap)
    (hpid : p.id = b.id) (hploc : p.loci = b.loci)
    (c : Beast) (hcmem : c ∈ heap) :
    ∃ x ∈ replaceBeast heap p ++ [nb], x.id = c.id ∧ x.loci = c.loci := by
  refine ⟨if c.id = p.id then p else c,
    List.mem_append_left _ (mem_replaceBeast hcmem), ?_, ?_⟩
  · exact ite_replace_id c p
  · by_cases hcp : c.id = p.id
    · have hcb : c = b :=
        List.inj_on_of_nodup_map hnd hcmem hb (by rw [hcp, hpid])
      subst hcb
      rw [if_pos hcp, hploc]
    · rw [if_neg hcp]

/-- One breeding attempt preserves the pass invariant, grows the
allocator, keeps the view of all pre-existing objects, and — whenever the
attempted parent is not of species `s` in cell `ci` — keeps the
(`ci`, `s`) occupant snapshot. -/
theorem breedAttempt_master (fitFn : FitFn) (sp : SpeciesDef) (largeN : Nat)
    (st : BreedSt) (aid : Nat) (hinv : BInv st) :
    BInv (breedAttempt fitFn sp largeN st aid) ∧
    st.nid ≤ (breedAttempt fitFn sp largeN st aid).nid ∧
    (∀ id, id < st.nid →
      heapView (breedAttempt fitFn sp largeN st aid).heap id = heapView st.heap id) ∧
    (∀ s ci, (∀ v, heapView st.heap aid = some v → (v.1 ≠ s ∨ v.2.2 ≠ some ci)) →
      cellMatesAt (breedAttempt fitFn sp largeN st aid) ci s = cellMatesAt st ci s) := by
  obtain ⟨hnd, hrec, hlt⟩ := hinv
  cases hf : st.heap.find? (fun x => x.id = aid) with
  | none =>
    rw [breedAttempt_nofind fitFn sp largeN st aid hf]
    exact ⟨⟨hnd, hrec, hlt⟩, le_refl _, fun _ _ => rfl, fun _ _ _ => rfl⟩
  | some b =>
    by_cases hc : st.rng.headD 0 < sp.birthChance (b.fitness fitFn) largeN
    swap
    · rw [breedAttempt_nobirth fitFn sp largeN st aid b hf hc]
      exact ⟨⟨hnd, hrec, hlt⟩, le_refl _, fun _ _ => rfl, fun _ _ _ => rfl⟩
    by_cases hbb : b.alder ≠ 0 ∧ sp.canBreed b.vekt = true
    swap
    · rw [breedAttempt_nobreed fitFn sp largeN st aid b hf hbb]
      exact ⟨⟨hnd, hrec, hlt⟩, le_refl _, fun _ _ => rfl, fun _ _ _ => rfl⟩
    rw [breedAttempt_breed fitFn sp largeN st aid b hf hc hbb]
    have hbmem : b ∈ st.heap := List.mem_of_find?_eq_some hf
    have hbid : b.id = aid := by simpa using List.find?_some hf
    have hmatesmem : ∀ ci, ∀ x ∈ (st.w.cells.getD ci zombieCell).habitants,
        ci < st.w.cells.length → x < st.nid := by
      intro ci x hx hci
      obtain ⟨c, hcmem, hcid, -⟩ := hrec ci hci x hx
      rw [← hcid]
      exact hlt c hcmem
    set parent : Beast := { b with vekt := b.vekt - sp.birthloss } with hparent
    set baby0 : Beast := { id := st.nid, isa := b.isa, vekt := sp.v_fod,
                           alder := 0, loci := none } with hbaby
    have hheap : replaceBeast st.w.beasts parent ++
        (replaceBeast st.buf parent ++ [(moveToSem baby0 st.w.cells b.loci).2.1]) =
        replaceBeast st.heap parent ++ [(moveToSem baby0 st.w.cells b.loci).2.1] := by
      simp [BreedSt.heap, replaceBeast, List.map_append]
    have hmv : ((moveToSem baby0 st.w.cells b.loci).2.1 = baby0 ∧ (moveToSem baby0 st.w.cells b.loci).2.2 = st.w.cells ∧
          (moveToSem baby0 st.w.cells b.loci).2.1.loci = none) ∨
        (∃ cj, b.loci = some cj ∧ (st.w.cells.getD cj zombieCell).live = true ∧
          (moveToSem baby0 st.w.cells b.loci).2.1 = { baby0 with loci := some cj } ∧
          (moveToSem baby0 st.w.cells b.loci).2.2 = insCell baby0 st.w.cells cj ∧
          (moveToSem baby0 st.w.cells b.loci).2.1.loci = some cj) := by
      cases hbl : b.loci with
      | none =>
        exact Or.inl ⟨rfl, rfl, rfl⟩
      | some cj =>
        by_cases hlv : (st.w.cells.getD cj zombieCell).live = true
        · right
          refine ⟨cj, rfl, hlv, ?_⟩
          rw [moveToSem_live baby0 st.w.cells cj hlv,
            moveCells_none baby0 st.w.cells cj rfl]
          exact ⟨rfl, rfl, rfl⟩
        · left
          rw [moveToSem_dead baby0 st.w.cells cj (by simpa using hlv)]
          exact ⟨rfl, rfl, rfl⟩
    have hnbid : (moveToSem baby0 st.w.cells b.loci).2.1.id = st.nid := by
      rcases hmv with ⟨h1, -, -⟩ | ⟨cj, -, -, h1, -, -⟩ <;> rw [h1] <;> rfl
    have hnbisa : (moveToSem baby0 st.w.cells b.loci).2.1.isa = b.isa := by
      rcases hmv with ⟨h1, -, -⟩ | ⟨cj, -, -, h1, -, -⟩ <;> rw [h1] <;> rfl
    have hview : ∀ id, id < st.nid →
        heapView (replaceBeast st.heap parent ++ [(moveToSem baby0 st.w.cells b.loci).2.1]) id =
          heapView st.heap id :=
      heapView_replace_append st.heap b parent (moveToSem baby0 st.w.cells b.loci).2.1 st.nid hnd hbmem
        rfl rfl rfl rfl hlt hnbid
    have hnewnodup := nodup_replace_append st.heap parent (moveToSem baby0 st.w.cells b.loci).2.1 st.nid
      hnd hlt hnbid
    have hnewlt : ∀ x ∈ replaceBeast st.heap parent ++ [(moveToSem baby0 st.w.cells b.loci).2.1],
        x.id < st.nid + 1 := by
      intro x hx
      rcases List.mem_append.mp hx with hx | hx
      · exact Nat.lt_succ_of_lt (ids_replaceBeast_lt st.heap parent st.nid hlt x hx)
      · rw [List.mem_singleton] at hx
        rw [hx, hnbid]
        exact Nat.lt_succ_self _
    refine ⟨⟨?_, ?_, ?_⟩, ?_, ?_, ?_⟩
    · simp only [BreedSt.heap]
      rw [hheap]
      exact hnewnodup
    · simp only [BreedSt.heap]
      intro ci hci id hid
      rw [hheap]
      rcases hmv with ⟨-, h2, -⟩ | ⟨cj, hbl, hlvj, h1, h2, h3⟩
      · rw [h2] at hci hid
        obtain ⟨c, hcmem, hcid, hcloc⟩ := hrec ci hci id hid
        obtain ⟨x, hxmem, hxid, hxloc⟩ :=
          record_transfer st.heap b parent (moveToSem baby0 st.w.cells b.loci).2.1 hnd hbmem rfl rfl c hcmem
        exact ⟨x, hxmem, by rw [hxid, hcid], by rw [hxloc, hcloc]⟩
      · have hcjlen : cj < st.w.cells.length := by
          by_contra hcon
          rw [List.getD_eq_default _ _ (Nat.le_of_not_lt hcon)] at hlvj
          exact Bool.false_ne_true hlvj
        rw [h2, length_insCell] at hci
        rw [h2] at hid
        by_cases hccj : ci = cj
        · subst hccj
          rw [insCell_getD_eq baby0 st.w.cells ci hcjlen] at hid
          rcases (mem_insertId id baby0.id _).mp hid with hid2 | hid2
          · obtain ⟨c, hcmem, hcid, hcloc⟩ := hrec ci hci id hid2
            obtain ⟨x, hxmem, hxid, hxloc⟩ :=
              record_transfer st.heap b parent (moveToSem baby0 st.w.cells b.loci).2.1 hnd hbmem rfl rfl c hcmem
            exact ⟨x, hxmem, by rw [hxid, hcid], by rw [hxloc, hcloc]⟩
          · refine ⟨(moveToSem baby0 st.w.cells b.loci).2.1, List.mem_append_right _ (by simp), ?_, by rw [h3]⟩
            rw [hnbid, hid2]
        · rw [insCell_getD_ne baby0 st.w.cells cj ci hccj] at hid
          obtain ⟨c, hcmem, hcid, hcloc⟩ := hrec ci hci id hid
          obtain ⟨x, hxmem, hxid, hxloc⟩ :=
            record_transfer st.heap b parent (moveToSem baby0 st.w.cells b.loci).2.1 hnd hbmem rfl rfl c hcmem
          exact ⟨x, hxmem, by rw [hxid, hcid], by rw [hxloc, hcloc]⟩
    · simp only [BreedSt.heap]
      rw [hheap]
      exact hnewlt
    · exact Nat.le_succ _
    · intro id hid
      simp only [BreedSt.heap]
      rw [hheap]
      exact hview id hid
    · intro s ci hside
      have hbview : heapView st.heap aid = some (b.isa, b.alder, b.loci) := by
        unfold heapView
        rw [hf]
        rfl
      have hside2 := hside (b.isa, b.alder, b.loci) hbview
      unfold cellMatesAt cellMates
      simp only [BreedSt.heap]
      rw [hheap]
      rcases hmv with ⟨-, h2, -⟩ | ⟨cj, hbl, hlvj, h1, h2, h3⟩
      · rw [h2]
        by_cases hci : ci < st.w.cells.length
        · refine List.filter_congr ?_
          intro x hx
          exact mateP_congr _ _ s 0 x (hview x (hmatesmem ci x hx hci))
        · rw [List.getD_eq_default _ _ (Nat.le_of_not_lt hci)]
          rfl
      · have hcjlen : cj < st.w.cells.length := by
          by_contra hcon
          rw [List.getD_eq_default _ _ (Nat.le_of_not_lt hcon)] at hlvj
          exact Bool.false_ne_true hlvj
        rw [h2]
        by_cases hccj : ci = cj
        · subst hccj
          have hisane : b.isa ≠ s := by
            rcases hside2 with h | h
            · exact h
            · exact absurd hbl h
          rw [insCell_getD_eq baby0 st.w.cells ci hcjlen]
          have hnidnot : baby0.id ∉ (st.w.cells.getD ci zombieCell).habitants := by
            intro hmem
            have hcon := hmatesmem ci baby0.id hmem hcjlen
            simp [hbaby] at hcon
          rw [show insertId baby0.id (st.w.cells.getD ci zombieCell).habitants =
              (st.w.cells.getD ci zombieCell).habitants ++ [baby0.id] from by
            unfold insertId
            rw [if_neg hnidnot]]
          rw [List.filter_append]
          have hlast : List.filter (mateP (replaceBeast st.heap parent ++
              [(moveToSem baby0 st.w.cells b.loci).2.1]) s 0) [baby0.id] = [] := by
            have hmp : mateP (replaceBeast st.heap parent ++
                [(moveToSem baby0 st.w.cells b.loci).2.1]) s 0 baby0.id = false := by
              unfold mateP
              have hb0 : baby0.id = st.nid := rfl
              rw [hb0, find?_replace_append_nid st.heap parent (moveToSem baby0 st.w.cells b.loci).2.1
                st.nid hlt hnbid]
              simp [hnbisa, hisane]
            simp [List.filter, hmp]
          rw [hlast, List.append_nil]
          refine List.filter_congr ?_
          intro x hx
          exact mateP_congr _ _ s 0 x (hview x (hmatesmem ci x hx hcjlen))
        · rw [insCell_getD_ne baby0 st.w.cells cj ci hccj]
          by_cases hci : ci < st.w.cells.length
          · refine List.filter_congr ?_
            intro x hx
            exact mateP_congr _ _ s 0 x (hview x (hmatesmem ci x hx hci))
          · rw [List.getD_eq_default _ _ (Nat.le_of_not_lt hci)]
            rfl

theorem breedAttempt_fold (fitFn : FitFn) (sp : SpeciesDef) (largeN : Nat)
    (s ci : Nat) (mates : List Nat) (st : BreedSt) (hinv : BInv st)
    (hvo : ∀ aid ∈ mates, aid < st.nid ∧
      (∀ v, heapView st.heap aid = some v → (v.1 ≠ s ∨ v.2.2 ≠ some ci))) :
    BInv (mates.foldl (breedAttempt fitFn sp largeN) st) ∧
    st.nid ≤ (mates.foldl (breedAttempt fitFn sp largeN) st).nid ∧
    (∀ id, id < st.nid →
      heapView (mates.foldl (breedAttempt fitFn sp largeN) st).heap id =
        heapView st.heap id) ∧
    cellMatesAt (mates.foldl (breedAttempt fitFn sp largeN) st) ci s =
      cellMatesAt st ci s := by
  induction mates generalizing st with
  | nil => exact ⟨hinv, le_refl _, fun _ _ => rfl, rfl⟩
  | cons m ms ih =>
    rw [List.foldl_cons]
    obtain ⟨h1, h2, h3, h4⟩ := breedAttempt_master fitFn sp largeN st m hinv
    have hm := hvo m (List.mem_cons_self m ms)
    have hstep := h4 s ci hm.2
    have hvo2 : ∀ aid ∈ ms, aid < (breedAttempt fitFn sp largeN st m).nid ∧
        (∀ v, heapView (breedAttempt fitFn sp largeN st m).heap aid = some v →
          (v.1 ≠ s ∨ v.2.2 ≠ some ci)) := by
      intro aid haid
      obtain ⟨ha1, ha2⟩ := hvo aid (List.mem_cons_of_mem m haid)
      refine ⟨lt_of_lt_of_le ha1 h2, ?_⟩
      intro v hv
      rw [h3 aid ha1] at hv
      exact ha2 v hv
    obtain ⟨g1, g2, g3, g4⟩ := ih (breedAttempt fitFn sp largeN st m) h1 hvo2
    refine ⟨g1, le_trans h2 g2, ?_, ?_⟩
    · intro id hid
      rw [g3 id (lt_of_lt_of_le hid h2), h3 id hid]
    · rw [g4, hstep]

theorem breedSpecies_master (fitFn : FitFn) (ci2 : Nat) (st : BreedSt)
    (spIdx s ci : Nat) (hinv : BInv st) (hside : spIdx ≠ s ∨ ci2 ≠ ci) :
    BInv (breedSpecies fitFn ci2 st spIdx) ∧
    st.nid ≤ (breedSpecies fitFn ci2 st spIdx).nid ∧
    (∀ id, id < st.nid →
      heapView (breedSpecies fitFn ci2 st spIdx).heap id = heapView st.heap id) ∧
    cellMatesAt (breedSpecies fitFn ci2 st spIdx) ci s = cellMatesAt st ci s := by
  unfold breedSpecies
  apply breedAttempt_fold fitFn _ _ s ci _ st hinv
  intro aid haid
  unfold cellMates at haid
  rw [List.mem_filter] at haid
  obtain ⟨hhab, hmp⟩ := haid
  have hci2 : ci2 < st.w.cells.length := by
    by_contra hcon
    rw [List.getD_eq_default _ _ (Nat.le_of_not_lt hcon)] at hhab
    cases hhab
  obtain ⟨c, hcmem, hcid, hcloc⟩ := hinv.2.1 ci2 hci2 aid hhab
  have hclt := hinv.2.2 c hcmem
  have hfind : st.heap.find? (fun x => x.id = aid) = some c := by
    rw [← hcid]
    exact find?_eq_of_nodup_mem hinv.1 hcmem
  refine ⟨by rw [← hcid]; exact hclt, ?_⟩
  intro v hv
  unfold heapView at hv
  rw [hfind] at hv
  simp only [Option.map_some', Option.some.injEq] at hv
  subst hv
  unfold mateP at hmp
  rw [hfind] at hmp
  simp only [Bool.and_eq_true, decide_eq_true_eq] at hmp
  rcases hside with h | h
  · exact Or.inl (by rw [hmp.1]; exact h)
  · refine Or.inr ?_
    rw [hcloc]
    intro hh
    exact h (Option.some.inj hh)

theorem BInv_of_eq (st1 st2 : BreedSt) (hh : st1.heap = st2.heap)
    (hc : st1.w.cells = st2.w.cells) (hn : st1.nid = st2.nid)
    (h : BInv st2) : BInv st1 := by
  unfold BInv
  rw [hh, hc, hn]
  exact h

theorem cellMatesAt_of_eq (st1 st2 : BreedSt) (hh : st1.heap = st2.heap)
    (hc : st1.w.cells = st2.w.cells) (ci s : Nat) :
    cellMatesAt st1 ci s = cellMatesAt st2 ci s := by
  unfold cellMatesAt
  rw [hh, hc]

theorem breedStep_heap (fitFn : FitFn) (genera : List Nat) (st : BreedSt)
    (ci : Nat) :
    (breedStep fitFn genera st ci).heap =
      (cellBreed fitFn genera ci st).heap := by
  unfold breedStep BreedSt.heap
  simp

theorem breedGenera_fold (fitFn : FitFn) (ci2 : Nat) (gs : List Nat)
    (st : BreedSt) (s ci : Nat) (hinv : BInv st)
    (hside : ∀ g ∈ gs, g ≠ s ∨ ci2 ≠ ci) :
    BInv (gs.foldl (breedSpecies fitFn ci2) st) ∧
    st.nid ≤ (gs.foldl (breedSpecies fitFn ci2) st).nid ∧
    (∀ id, id < st.nid →
      heapView (gs.foldl (breedSpecies fitFn ci2) st).heap id =
        heapView st.heap id) ∧
    cellMatesAt (gs.foldl (breedSpecies fitFn ci2) st) ci s =
      cellMatesAt st ci s := by
  induction gs generalizing st with
  | nil => exact ⟨hinv, le_refl _, fun _ _ => rfl, rfl⟩
  | cons g gs2 ih =>
    rw [List.foldl_cons]
    obtain ⟨h1, h2, h3, h4⟩ := breedSpecies_master fitFn ci2 st g s ci hinv
      (hside g (List.mem_cons_self g gs2))
    obtain ⟨g1, g2, g3, g4⟩ := ih (breedSpecies fitFn ci2 st g) h1
      (fun x hx => hside x (List.mem_cons_of_mem g hx))
    refine ⟨g1, le_trans h2 g2, ?_, ?_⟩
    · intro id hid
      rw [g3 id (lt_of_lt_of_le hid h2), h3 id hid]
    · rw [g4, h4]

theorem cellBreed_master (fitFn : FitFn) (genera : List Nat) (ci2 : Nat)
    (st : BreedSt) (s ci : Nat) (hinv : BInv st) (hbuf : st.buf = [])
    (hside : ∀ g ∈ genera, g ≠ s ∨ ci2 ≠ ci) :
    BInv (cellBreed fitFn genera ci2 st) ∧
    st.nid ≤ (cellBreed fitFn genera ci2 st).nid ∧
    (∀ id, id < st.nid →
      heapView (cellBreed fitFn genera ci2 st).heap id = heapView st.heap id) ∧
    cellMatesAt (cellBreed fitFn genera ci2 st) ci s = cellMatesAt st ci s := by
  unfold cellBreed
  have heq : { st with buf := ([] : List Beast) } = st := by
    rw [← hbuf]
  rw [heq]
  exact breedGenera_fold fitFn ci2 genera st s ci hinv hside

theorem breedStep_master (fitFn : FitFn) (genera : List Nat) (st : BreedSt)
    (cj s ci : Nat) (hinv : BInv st) (hbuf : st.buf = [])
    (hside : ∀ g ∈ genera, g ≠ s ∨ cj ≠ ci) :
    BInv (breedStep fitFn genera st cj) ∧
    st.nid ≤ (breedStep fitFn genera st cj).nid ∧
    (∀ id, id < st.nid →
      heapView (breedStep fitFn genera st cj).heap id = heapView st.heap id) ∧
    cellMatesAt (breedStep fitFn genera st cj) ci s = cellMatesAt st ci s ∧
    (breedStep fitFn genera st cj).buf = [] := by
  obtain ⟨h1, h2, h3, h4⟩ := cellBreed_master fitFn genera cj st s ci hinv hbuf hside
  have hh := breedStep_heap fitFn genera st cj
  have hc : (breedStep fitFn genera st cj).w.cells =
      (cellBreed fitFn genera cj st).w.cells := rfl
  have hn : (breedStep fitFn genera st cj).nid =
      (cellBreed fitFn genera cj st).nid := rfl
  refine ⟨BInv_of_eq _ _ hh hc hn h1, ?_, ?_, ?_, rfl⟩
  · rw [hn]; exact h2
  · intro id hid
    unfold heapView
    rw [hh]
    exact h3 id hid
  · rw [cellMatesAt_of_eq _ _ hh hc ci s, h4]

theorem breedPassUpTo_master (fitFn : FitFn) (genera : List Nat)
    (order : List Nat) (st : BreedSt) (s ci : Nat) (hinv : BInv st)
    (hbuf : st.buf = []) (hci : ci ∉ order) :
    BInv (breedPassUpTo fitFn genera st order) ∧
    st.nid ≤ (breedPassUpTo fitFn genera st order).nid ∧
    (∀ id, id < st.nid →
      heapView (breedPassUpTo fitFn genera st order).heap id =
        heapView st.heap id) ∧
    cellMatesAt (breedPassUpTo fitFn genera st order) ci s =
      cellMatesAt st ci s ∧
    (breedPassUpTo fitFn genera st order).buf = [] := by
  induction order generalizing st with
  | nil => exact ⟨hinv, le_refl _, fun _ _ => rfl, rfl, hbuf⟩
  | cons cj rest ih =>
    have hcj : cj ≠ ci := fun h => hci (h ▸ List.mem_cons_self cj rest)
    have hrest : ci ∉ rest := fun h => hci (List.mem_cons_of_mem cj h)
    rw [show breedPassUpTo fitFn genera st (cj :: rest) =
      breedPassUpTo fitFn genera (breedStep fitFn genera st cj) rest from rfl]
    obtain ⟨h1, h2, h3, h4, h5⟩ := breedStep_master fitFn genera st cj s ci hinv
      hbuf (fun g _ => Or.inr hcj)
    obtain ⟨g1, g2, g3, g4, g5⟩ := ih (breedStep fitFn genera st cj) h1 h5 hrest
    refine ⟨g1, le_trans h2 g2, ?_, ?_, g5⟩
    · intro id hid
      rw [g3 id (lt_of_lt_of_le hid h2), h3 id hid]
    · rw [g4, h4]

theorem buf_set_eq (st : BreedSt) (h : st.buf = []) :
    { st with buf := ([] : List Beast) } = st := by
  cases st
  cases h
  rfl

/-- **C3 (amended).**  In a Breeding pass over `cpre ++ ci :: cpost` the
per-(cell, species) occupant snapshot is the only buffering that matters
for `N`: the pass runs through the state reached after the prefix cells
(first conjunct), the cell's species loop runs through the state reached
after the prefix species (second conjunct), and the `(ci, s)` mates
snapshot taken at that point — whose length is the `largeN` fed to every
`birthChance` evaluation of that (cell, species) round — equals the
pre-pass snapshot (third conjunct).  So although newborns enter their
cell's resident set immediately and the global set cell-by-cell, the `N`
used by every `birthChance` evaluation equals the same-species occupant
count present before the pass, and newborns receive no breeding attempt. -/
theorem breeding_largeN_spec (fitFn : FitFn) (genera : List Nat) (w0 : World)
    (rng : List ℚ) (nid : Nat) (cpre cpost : List Nat) (ci : Nat)
    (gpre gpost : List Nat) (s : Nat)
    (hci : ci ∉ cpre) (hs : s ∉ gpre)
    (hinv : BInv { w := w0, buf := [], rng := rng, nid := nid }) :
    (breedPassUpTo fitFn genera { w := w0, buf := [], rng := rng, nid := nid } (cpre ++ ci :: cpost) =
      breedPassUpTo fitFn genera
        (breedStep fitFn genera (breedPassUpTo fitFn genera { w := w0, buf := [], rng := rng, nid := nid } cpre) ci) cpost) ∧
    (cellBreed fitFn (gpre ++ s :: gpost) ci (breedPassUpTo fitFn genera { w := w0, buf := [], rng := rng, nid := nid } cpre) =
      (s :: gpost).foldl (breedSpecies fitFn ci)
        (gpre.foldl (breedSpecies fitFn ci) { breedPassUpTo fitFn genera { w := w0, buf := [], rng := rng, nid := nid } cpre with buf := [] })) ∧
    (cellMates (gpre.foldl (breedSpecies fitFn ci)
        { breedPassUpTo fitFn genera { w := w0, buf := [], rng := rng, nid := nid } cpre with buf := [] }).heap
      ((gpre.foldl (breedSpecies fitFn ci)
        { breedPassUpTo fitFn genera { w := w0, buf := [], rng := rng, nid := nid } cpre with buf := [] }).w.cells.getD ci zombieCell) s 0 =
      cellMates w0.beasts (w0.cells.getD ci zombieCell) s 0) := by
  obtain ⟨p1, p2, p3, p4, p5⟩ :=
    breedPassUpTo_master fitFn genera cpre { w := w0, buf := [], rng := rng, nid := nid } s ci hinv rfl hci
  have hb : { breedPassUpTo fitFn genera { w := w0, buf := [], rng := rng, nid := nid } cpre with buf := ([] : List Beast) } =
      breedPassUpTo fitFn genera { w := w0, buf := [], rng := rng, nid := nid } cpre :=
    buf_set_eq _ p5
  refine ⟨?_, ?_, ?_⟩
  · unfold breedPassUpTo
    rw [List.foldl_append, List.foldl_cons]
  · unfold cellBreed
    rw [List.foldl_append]
  · rw [hb]
    obtain ⟨q1, q2, q3, q4⟩ := breedGenera_fold fitFn ci gpre
      (breedPassUpTo fitFn genera { w := w0, buf := [], rng := rng, nid := nid } cpre) s ci p1
      (fun g hg => Or.inl (fun hh => hs (hh ▸ hg)))
    have e3 : cellMatesAt { w := w0, buf := [], rng := rng, nid := nid } ci s =
        cellMates w0.beasts (w0.cells.getD ci zombieCell) s 0 := by
      unfold cellMatesAt BreedSt.heap
      rw [List.append_nil]
    show cellMatesAt (gpre.foldl (breedSpecies fitFn ci)
      (breedPassUpTo fitFn genera { w := w0, buf := [], rng := rng, nid := nid } cpre)) ci s = _
    rw [q4, p4, e3]

/-- **C3 witness.**  The amended theorem at a concrete two-cell world:
with traversal `[1, 0]` and species list `[0]`, the mates snapshot for
(cell 0, species 0) taken when cell 0 is processed (after cell 1) equals
the pre-pass snapshot `[7, 8]`. -/
theorem breeding_largeN_spec_witness :
    let w0 : World := { species := [{ name := "B", predatory := false,
                                      v_fod := 5, beta := 1, v_min := 1,
                                      gamma := 1, zeta := 0, omega := 0,
                                      F := 10, deltaPhiMax := -1 }],
                        beasts := [{ id := 7, isa := 0, vekt := 10, alder := 1,
                                     loci := some 0 },
                                   { id := 8, isa := 0, vekt := 10, alder := 1,
                                     loci := some 0 },
                                   { id := 9, isa := 0, vekt := 10, alder := 1,
                                     loci := some 1 }],
                        cells := [{ live := true, feed := 0, habitants := [7, 8] },
                                  { live := true, feed := 0, habitants := [9] }],
                        cols := 2, rows := 1 }
    cellMates (([] : List Nat).foldl (breedSpecies (fun _ _ _ => 1) 0)
        { breedPassUpTo (fun _ _ _ => 1) [0]
            { w := w0, buf := [], rng := [0, 0], nid := 10 } [1] with buf := [] }).heap
      ((([] : List Nat).foldl (breedSpecies (fun _ _ _ => 1) 0)
        { breedPassUpTo (fun _ _ _ => 1) [0]
            { w := w0, buf := [], rng := [0, 0], nid := 10 } [1] with
          buf := [] }).w.cells.getD 0 zombieCell) 0 0 =
      cellMates w0.beasts (w0.cells.getD 0 zombieCell) 0 0 := by
  intro w0
  exact (breeding_largeN_spec (fun _ _ _ => 1) [0] w0 [0, 0] 10 [1] [] 0 [] [] 0
    (by decide) (by decide) ⟨by decide, by decide, by decide⟩).2.2

theorem predLoop_cons (fitFn : FitFn) (sp : SpeciesDef) (heap : List Beast)
    (m : Nat) (rest : List Nat) (pred : Beast) (rng : List ℚ) (prey : Beast)
    (hprey : heap.find? (fun b => b.id = m) = some prey) :
    predLoop fitFn sp heap (m :: rest) pred rng =
      if prey.isa ≠ pred.isa ∧ prey.vekt ≠ 0 then
        (if (eatSem fitFn sp pred prey rng).1 then
          (predLoop fitFn sp heap rest
            { pred with vekt := pred.vekt + sp.beta * prey.vekt }
            (eatSem fitFn sp pred prey rng).2).map
              (fun r => (r.1, m :: r.2.1, r.2.2))
        else predLoop fitFn sp heap rest pred (eatSem fitFn sp pred prey rng).2)
      else predLoop fitFn sp heap rest pred rng := by
  conv_lhs => rw [predLoop]
  rw [hprey]
  rfl

theorem predLoop_props (fitFn : FitFn) (sp : SpeciesDef) (heap : List Beast)
    (l : List Nat) : ∀ (pred : Beast) (rng : List ℚ),
    (∀ m ∈ l, ∃ x ∈ heap, x.id = m) →
    ∃ b' food rng',
      predLoop fitFn sp heap l pred rng = some (b', food, rng') ∧
      beastSkel b' = beastSkel pred ∧
      food.Sublist l ∧
      (∀ fid ∈ food, ∃ prey ∈ heap, prey.id = fid ∧ prey.isa ≠ pred.isa) := by
  induction l with
  | nil =>
    intro pred rng _
    exact ⟨pred, [], rng, rfl, rfl, List.Sublist.refl _, by simp⟩
  | cons m rest ih =>
    intro pred rng hfind
    obtain ⟨x, hx, hxid⟩ := hfind m (List.mem_cons_self m rest)
    have hfs : (heap.find? fun b => b.id = m).isSome :=
      List.find?_isSome.mpr ⟨x, hx, by simpa using hxid⟩
    obtain ⟨prey, hprey⟩ := Option.isSome_iff_exists.mp hfs
    have hpm : prey ∈ heap := List.mem_of_find?_eq_some hprey
    have hpid : prey.id = m := by simpa using List.find?_some hprey
    rw [predLoop_cons fitFn sp heap m rest pred rng prey hprey]
    have hrest : ∀ m' ∈ rest, ∃ x ∈ heap, x.id = m' :=
      fun m' hm' => hfind m' (List.mem_cons_of_mem m hm')
    by_cases hc : prey.isa ≠ pred.isa ∧ prey.vekt ≠ 0
    · rw [if_pos hc]
      by_cases he : (eatSem fitFn sp pred prey rng).1 = true
      · rw [if_pos he]
        obtain ⟨b', food, rng', heq, hsk, hsub, hprops⟩ :=
          ih { pred with vekt := pred.vekt + sp.beta * prey.vekt }
            (eatSem fitFn sp pred prey rng).2 hrest
        refine ⟨b', m :: food, rng', ?_, hsk, hsub.cons₂ m, ?_⟩
        · rw [heq]
          rfl
        · intro fid hfid
          rcases List.mem_cons.mp hfid with rfl | hfid2
          · exact ⟨prey, hpm, hpid, hc.1⟩
          · exact hprops fid hfid2
      · rw [if_neg he]
        obtain ⟨b', food, rng', heq, hsk, hsub, hprops⟩ :=
          ih pred (eatSem fitFn sp pred prey rng).2 hrest
        exact ⟨b', food, rng', heq, hsk, hsub.cons m, hprops⟩
    · rw [if_neg hc]
      obtain ⟨b', food, rng', heq, hsk, hsub, hprops⟩ := ih pred rng hrest
      exact ⟨b', food, rng', heq, hsk, hsub.cons m, hprops⟩

theorem map_beastSkel_replace (l : List Beast) (b b' : Beast)
    (hnd : (l.map Beast.id).Nodup) (hb : b ∈ l)
    (hsk : beastSkel b' = beastSkel b) :
    (replaceBeast l b').map beastSkel = l.map beastSkel := by
  have hid : b'.id = b.id := congrArg Prod.fst hsk
  unfold replaceBeast
  rw [List.map_map]
  apply List.map_congr_left
  intro x hx
  by_cases h : x.id = b'.id
  · have hxb : x = b := List.inj_on_of_nodup_map hnd hx hb (hid ▸ h)
    subst hxb
    simp only [Function.comp_apply, if_pos h, hsk]
  · simp only [Function.comp_apply, if_neg h]

theorem map_cellSkel_set (cells : List CellSt) (ci : Nat) (c' : CellSt)
    (h : cellSkel c' = cellSkel (cells.getD ci zombieCell)) :
    (cells.set ci c').map cellSkel = cells.map cellSkel := by
  induction cells generalizing ci with
  | nil => rfl
  | cons c t iht =>
    cases ci with
    | zero =>
      simp only [List.getD_cons_zero] at h
      simp only [List.set_cons_zero, List.map_cons, h]
    | succ cj =>
      simp only [List.getD_cons_succ] at h
      simp only [List.set_cons_succ, List.map_cons, iht cj h]

theorem getD_map {α β : Type _} (f : α → β) (l : List α) (i : Nat) (d : α) :
    (l.map f).getD i (f d) = f (l.getD i d) := by
  induction l generalizing i with
  | nil => rfl
  | cons a t ih =>
    cases i with
    | zero => rfl
    | succ j => exact ih j

theorem skel_mem_back {l l' : List Beast}
    (h : l'.map beastSkel = l.map beastSkel) {x : Beast} (hx : x ∈ l') :
    ∃ x0 ∈ l, x0.id = x.id ∧ x0.isa = x.isa ∧ x0.loci = x.loci := by
  have hm : beastSkel x ∈ l.map beastSkel := by
    rw [← h]
    exact List.mem_map_of_mem beastSkel hx
  obtain ⟨x0, hx0, hs⟩ := List.mem_map.mp hm
  exact ⟨x0, hx0, congrArg (fun s => s.1) hs, congrArg (fun s => s.2.1) hs,
    congrArg (fun s => s.2.2) hs⟩

theorem cellSkel_getD (cells cells' : List CellSt)
    (h : cells'.map cellSkel = cells.map cellSkel) (ci : Nat) :
    (cells'.getD ci zombieCell).live = (cells.getD ci zombieCell).live ∧
    (cells'.getD ci zombieCell).habitants =
      (cells.getD ci zombieCell).habitants := by
  have h2 : cellSkel (cells'.getD ci zombieCell) =
      cellSkel (cells.getD ci zombieCell) := by
    rw [← getD_map cellSkel cells' ci zombieCell,
      ← getD_map cellSkel cells ci zombieCell, h]
  exact ⟨congrArg (fun s => s.1) h2, congrArg (fun s => s.2) h2⟩

theorem length_of_map_eq {α β : Type _} {f : α → β} {l l' : List α}
    (h : l'.map f = l.map f) : l'.length = l.length := by
  have h2 := congrArg List.length h
  simpa using h2

/-- The world invariant only reads the skeleton of the animal store and the
cells; mutating weights and feed levels preserves it. -/
theorem WInv_congr (w w' : World)
    (hb : w'.beasts.map beastSkel = w.beasts.map beastSkel)
    (hc : w'.cells.map cellSkel = w.cells.map cellSkel)
    (hinv : WInv w) : WInv w' := by
  obtain ⟨h1, h2, h3, h4, h5⟩ := hinv
  have hlen : w'.cells.length = w.cells.length := length_of_map_eq hc
  have hcd := cellSkel_getD w.cells w'.cells hc
  have hids : w'.beasts.map Beast.id = w.beasts.map Beast.id := by
    have e : ∀ l : List Beast,
        l.map Beast.id = (l.map beastSkel).map (fun s => s.1) := by
      intro l
      rw [List.map_map]
      rfl
    rw [e w'.beasts, e w.beasts, hb]
  refine ⟨?_, ?_, ?_, ?_, ?_⟩
  · rw [hids]
    exact h1
  · intro ci hci
    rw [(hcd ci).2]
    exact h2 ci (hlen ▸ hci)
  · intro b hbm ci hci
    obtain ⟨x0, hx0, hxid, _, hxloci⟩ := skel_mem_back hb hbm
    rw [(hcd ci).2, ← hxid, ← hxloci]
    exact h3 x0 hx0 ci (hlen ▸ hci)
  · intro b hbm
    obtain ⟨x0, hx0, _, _, hxloci⟩ := skel_mem_back hb hbm
    rcases h4 x0 hx0 with hnone | ⟨ci, hci, hlc, hlive⟩
    · exact Or.inl (hxloci ▸ hnone)
    · exact Or.inr ⟨ci, hlen ▸ hci, hxloci ▸ hlc, ((hcd ci).1).trans hlive⟩
  · intro ci hci id hid
    rw [(hcd ci).2] at hid
    obtain ⟨y, hy, hyid⟩ := h5 ci (hlen ▸ hci) id hid
    obtain ⟨y', hy', hy'id, _, _⟩ := skel_mem_back hb.symm hy
    exact ⟨y', hy', hy'id.trans hyid⟩

/-- `animals.erase(ptr); delete ptr` succeeds on a live pointer and
preserves the world invariant: the animal's record disappears from the
store and its identifier from its cell's resident set. -/
theorem deleteBeast_props (w : World) (aid : Nat) (b : Beast)
    (hfind : w.findBeast aid = some b) (hinv : WInv w) :
    deleteBeast w aid =
      some { w with beasts := w.beasts.filter (fun x => x.id ≠ aid),
                    cells := removeFromLoci w.cells b.loci aid } ∧
    WInv { w with beasts := w.beasts.filter (fun x => x.id ≠ aid),
                  cells := removeFromLoci w.cells b.loci aid } := by
  have hfind' : w.beasts.find? (fun x => x.id = aid) = some b := hfind
  have hbm : b ∈ w.beasts := List.mem_of_find?_eq_some hfind'
  have hbid : b.id = aid := by simpa using List.find?_some hfind'
  obtain ⟨h1, h2, h3, h4, h5⟩ := hinv
  have hinj : ∀ x ∈ w.beasts, ∀ y ∈ w.beasts, x.id = y.id → x = y :=
    fun x hx y hy hxy => List.inj_on_of_nodup_map h1 hx hy hxy
  have heq : deleteBeast w aid =
      some { w with beasts := w.beasts.filter (fun x => x.id ≠ aid),
                    cells := removeFromLoci w.cells b.loci aid } := by
    unfold deleteBeast
    rw [hfind]
  refine ⟨heq, ?_⟩
  have hnd1 : ((w.beasts.filter (fun x => x.id ≠ aid)).map Beast.id).Nodup :=
    h1.sublist (List.Sublist.map Beast.id (List.filter_sublist w.beasts))
  have hmemf : ∀ x : Beast, x ∈ w.beasts.filter (fun y => y.id ≠ aid) ↔
      x ∈ w.beasts ∧ x.id ≠ aid := by
    intro x
    rw [List.mem_filter]
    simp
  have hlen : (removeFromLoci w.cells b.loci aid).length = w.cells.length := by
    unfold removeFromLoci
    cases b.loci with
    | none => rfl
    | some ci0 => simp
  have hci0' : ∀ ci0, b.loci = some ci0 → ci0 < w.cells.length := by
    intro ci0 hbl
    rcases h4 b hbm with hn | ⟨ci, hci, hlc, _⟩
    · rw [hbl] at hn
      cases hn
    · rw [hbl] at hlc
      cases hlc
      exact hci
  have hgetD : ∀ ci, (removeFromLoci w.cells b.loci aid).getD ci zombieCell =
      if b.loci = some ci then (w.cells.getD ci zombieCell).removeAnimal aid
      else w.cells.getD ci zombieCell := by
    intro ci
    cases hbl : b.loci with
    | none =>
      rw [if_neg (by simp)]
      rfl
    | some ci0 =>
      show (w.cells.set ci0 ((w.cells.getD ci0 zombieCell).removeAnimal aid)).getD
          ci zombieCell = _
      by_cases hc : ci0 = ci
      · subst hc
        rw [if_pos rfl, getD_set_eq _ _ _ _ (hci0' ci0 hbl)]
      · have hne : ¬ (some ci0 = some ci) := by
          intro h
          exact hc (Option.some.inj h)
        rw [if_neg hne, getD_set_ne _ _ _ _ _ hc]
  have hhab : ∀ (x : Nat) (ci),
      x ∈ ((removeFromLoci w.cells b.loci aid).getD ci zombieCell).habitants ↔
        x ∈ (w.cells.getD ci zombieCell).habitants ∧
          (b.loci = some ci → x ≠ aid) := by
    intro x ci
    rw [hgetD ci]
    by_cases hc : b.loci = some ci
    · rw [if_pos hc]
      unfold CellSt.removeAnimal
      simp only [List.mem_filter, decide_eq_true_eq]
      constructor
      · rintro ⟨hm, hne⟩
        exact ⟨hm, fun _ => hne⟩
      · rintro ⟨hm, hne⟩
        exact ⟨hm, hne hc⟩
    · rw [if_neg hc]
      constructor
      · intro hm
        exact ⟨hm, fun h => absurd h hc⟩
      · exact fun h => h.1
  have hlive : ∀ ci,
      ((removeFromLoci w.cells b.loci aid).getD ci zombieCell).live =
        (w.cells.getD ci zombieCell).live := by
    intro ci
    rw [hgetD ci]
    by_cases hc : b.loci = some ci
    · rw [if_pos hc]
      rfl
    · rw [if_neg hc]
  have hidne : ∀ (ci : Nat) (id : Nat), ci < w.cells.length →
      id ∈ (w.cells.getD ci zombieCell).habitants →
      (b.loci = some ci → id ≠ aid) → id ≠ aid := by
    intro ci id hci hm hcond hcontra
    have hbin : b.id ∈ (w.cells.getD ci zombieCell).habitants := by
      rw [hbid, ← hcontra]
      exact hm
    have hlc := (h3 b hbm ci hci).mp hbin
    exact (hcond hlc) hcontra
  refine ⟨hnd1, ?_, ?_, ?_, ?_⟩
  · intro ci hci
    dsimp only at hci ⊢
    rw [hgetD ci]
    by_cases hc : b.loci = some ci
    · rw [if_pos hc]
      exact ((h2 ci (hlen ▸ hci)).filter _)
    · rw [if_neg hc]
      exact h2 ci (hlen ▸ hci)
  · intro x hx ci hci
    dsimp only at hx hci ⊢
    obtain ⟨hxw, hxne⟩ := (hmemf x).mp hx
    rw [hhab x.id ci]
    constructor
    · rintro ⟨hm, _⟩
      exact (h3 x hxw ci (hlen ▸ hci)).mp hm
    · intro hl
      exact ⟨(h3 x hxw ci (hlen ▸ hci)).mpr hl, fun _ => hxne⟩
  · intro x hx
    dsimp only at hx ⊢
    rcases h4 x ((hmemf x).mp hx).1 with hn | ⟨ci, hci, hlc, hlv⟩
    · exact Or.inl hn
    · exact Or.inr ⟨ci, hlen ▸ hci, hlc, (hlive ci).trans hlv⟩
  · intro ci hci id hid
    dsimp only at hci hid ⊢
    rw [hhab id ci] at hid
    obtain ⟨hm, hcond⟩ := hid
    obtain ⟨y, hy, hyid⟩ := h5 ci (hlen ▸ hci) id hm
    have hidy : y.id ≠ aid := by
      rw [hyid]
      exact hidne ci id (hlen ▸ hci) hm hcond
    exact ⟨y, (hmemf y).mpr ⟨hy, hidy⟩, hyid⟩

/-- Existential packaging of `deleteBeast_props`. -/
theorem deleteBeast_exists (w : World) (aid : Nat) (b : Beast)
    (hfind : w.findBeast aid = some b) (hinv : WInv w) :
    ∃ w1, deleteBeast w aid = some w1 ∧ WInv w1 ∧ w1.species = w.species ∧
      (∀ x : Beast, x ∈ w1.beasts ↔ x ∈ w.beasts ∧ x.id ≠ aid) := by
  obtain ⟨heq, hinv1⟩ := deleteBeast_props w aid b hfind hinv
  refine ⟨_, heq, hinv1, rfl, ?_⟩
  intro x
  show x ∈ w.beasts.filter (fun y => y.id ≠ aid) ↔ _
  rw [List.mem_filter]
  simp

/-- The whole inner delete loop succeeds when the food vector is duplicate
free and every entry is the identifier of a stored non-predatory animal;
exactly those records disappear. -/
theorem deleteFood_props (food : List Nat) : ∀ (w : World), WInv w →
    food.Nodup →
    (∀ fid ∈ food, ∃ x ∈ w.beasts, x.id = fid ∧ w.isPred x = false) →
    ∃ w', deleteFood w food = some w' ∧ WInv w' ∧ w'.species = w.species ∧
      (∀ x : Beast, x ∈ w'.beasts ↔ x ∈ w.beasts ∧ x.id ∉ food) := by
  induction food with
  | nil =>
    intro w hinv _ _
    exact ⟨w, rfl, hinv, rfl, by simp⟩
  | cons f rest ih =>
    intro w hinv hnd hmem
    obtain ⟨x, hx, hxid, _⟩ := hmem f (List.mem_cons_self f rest)
    have hfs : (w.findBeast f).isSome := by
      unfold World.findBeast
      exact List.find?_isSome.mpr ⟨x, hx, by simpa using hxid⟩
    obtain ⟨b, hb⟩ := Option.isSome_iff_exists.mp hfs
    obtain ⟨w1, heq, hinv1, hspe1, hchar1⟩ := deleteBeast_exists w f b hb hinv
    rw [List.nodup_cons] at hnd
    have hrest : ∀ fid ∈ rest,
        ∃ y ∈ w1.beasts, y.id = fid ∧ w1.isPred y = false := by
      intro fid hfid
      obtain ⟨y, hy, hyid, hynp⟩ := hmem fid (List.mem_cons_of_mem f hfid)
      have hne : y.id ≠ f := by
        rw [hyid]
        intro hcontra
        exact hnd.1 (hcontra ▸ hfid)
      refine ⟨y, (hchar1 y).mpr ⟨hy, hne⟩, hyid, ?_⟩
      show (w1.species.getD y.isa dfltSpecies).predatory = false
      rw [hspe1]
      exact hynp
    obtain ⟨w', hw', hinv', hspe', hchar'⟩ := ih w1 hinv1 hnd.2 hrest
    refine ⟨w', ?_, hinv', hspe'.trans hspe1, ?_⟩
    · show (f :: rest).foldl (fun acc fid => acc.bind fun wa => deleteBeast wa fid)
        (some w) = some w'
      rw [List.foldl_cons]
      simp only [Option.some_bind, heq]
      exact hw'
    · intro z
      rw [hchar' z, hchar1 z]
      simp only [List.mem_cons]
      constructor
      · rintro ⟨⟨hzw, hzne⟩, hznr⟩
        refine ⟨hzw, ?_⟩
        rintro (h | h)
        · exact hzne h
        · exact hznr h
      · rintro ⟨hzw, hznotin⟩
        exact ⟨⟨hzw, fun h => hznotin (Or.inl h)⟩, fun h => hznotin (Or.inr h)⟩

/-- A herbivore's feeding turn always succeeds, consumes no randomness, and
only mutates its own weight and its cell's feed level. -/
theorem herbTurn_props (fitFn : FitFn) (w : World) (aid : Nat) (rng : List ℚ)
    (b : Beast) (hinv : WInv w) (hfind : w.findBeast aid = some b)
    (hnp : w.isPred b = false) (hloc : b.loci ≠ none) :
    ∃ w1, feedTurn fitFn w aid rng = some (w1, rng) ∧
      w1.species = w.species ∧
      w1.beasts.map beastSkel = w.beasts.map beastSkel ∧
      w1.cells.map cellSkel = w.cells.map cellSkel := by
  have hfind' : w.beasts.find? (fun x => x.id = aid) = some b := hfind
  have hbm : b ∈ w.beasts := List.mem_of_find?_eq_some hfind'
  have hbid : b.id = aid := by simpa using List.find?_some hfind'
  obtain ⟨ci, hbl⟩ : ∃ ci, b.loci = some ci := by
    cases hblc : b.loci with
    | none => exact absurd hblc hloc
    | some c => exact ⟨c, rfl⟩
  have hspp : (w.species.getD b.isa dfltSpecies).predatory = false := hnp
  have hmain : feedTurn fitFn w aid rng =
      some ({ w with
                beasts := replaceBeast w.beasts
                  { b with vekt := b.vekt +
                      (w.species.getD b.isa dfltSpecies).beta *
                      ((w.cells.getD ci zombieCell).graze
                        (w.species.getD b.isa dfltSpecies).F).1 },
                cells := w.cells.set ci
                  ((w.cells.getD ci zombieCell).graze
                    (w.species.getD b.isa dfltSpecies).F).2 },
            rng) := by
    unfold feedTurn
    rw [hfind]
    unfold speciesFeedSem
    simp only [hbl, hspp, Bool.false_eq_true, if_false]
    rw [hbid, if_pos rfl]
    rfl
  refine ⟨_, hmain, rfl, ?_, ?_⟩
  · exact map_beastSkel_replace w.beasts b _ hinv.1 hbm rfl
  · apply map_cellSkel_set
    unfold CellSt.graze
    by_cases hg : (w.cells.getD ci zombieCell).feed ≥
        (w.species.getD b.isa dfltSpecies).F
    · rw [if_pos hg]
      rfl
    · rw [if_neg hg]
      rfl

/-- A predator's feeding turn succeeds whenever the world invariant holds,
every stored animal is located, and every predatory animal belongs to the
single predatory species `p`: every consumed animal is a stored herbivore,
is erased exactly once, and every predatory animal survives the turn. -/
theorem predTurn_props (fitFn : FitFn) (w : World) (aid : Nat) (rng : List ℚ)
    (p : Nat) (b : Beast) (hinv : WInv w) (hfind : w.findBeast aid = some b)
    (hp : w.isPred b = true) (hloc : ∀ x ∈ w.beasts, x.loci ≠ none)
    (hsp : ∀ x ∈ w.beasts, w.isPred x = true → x.isa = p) :
    ∃ w2 rng1, feedTurn fitFn w aid rng = some (w2, rng1) ∧ WInv w2 ∧
      w2.species = w.species ∧
      (∀ x ∈ w2.beasts, ∃ x0 ∈ w.beasts,
        x0.id = x.id ∧ x0.isa = x.isa ∧ x0.loci = x.loci) ∧
      (∀ a : Nat, (∃ x ∈ w.beasts, x.id = a ∧ w.isPred x = true) →
        ∃ x ∈ w2.beasts, x.id = a ∧ w2.isPred x = true) := by
  have hfind' : w.beasts.find? (fun x => x.id = aid) = some b := hfind
  have hbm : b ∈ w.beasts := List.mem_of_find?_eq_some hfind'
  have hbid : b.id = aid := by simpa using List.find?_some hfind'
  obtain ⟨h1, h2, h3, h4, h5⟩ := hinv
  have hinj : ∀ x ∈ w.beasts, ∀ y ∈ w.beasts, x.id = y.id → x = y :=
    fun x hx y hy hxy => List.inj_on_of_nodup_map h1 hx hy hxy
  obtain ⟨ci, hbl⟩ : ∃ ci, b.loci = some ci := by
    cases hblc : b.loci with
    | none => exact absurd hblc (hloc b hbm)
    | some c => exact ⟨c, rfl⟩
  have hcilen : ci < w.cells.length := by
    rcases h4 b hbm with hn | ⟨ci', hci', hlc', _⟩
    · rw [hbl] at hn
      cases hn
    · rw [hbl] at hlc'
      cases hlc'
      exact hci'
  have hspp : (w.species.getD b.isa dfltSpecies).predatory = true := hp
  have hfindall : ∀ m ∈ (w.cells.getD ci zombieCell).habitants,
      ∃ x ∈ w.beasts, x.id = m := h5 ci hcilen
  obtain ⟨b', food, rng', heqPL, hskb', hsub, hprops⟩ :=
    predLoop_props fitFn (w.species.getD b.isa dfltSpecies) w.beasts
      (w.cells.getD ci zombieCell).habitants b rng hfindall
  have hfeed : speciesFeedSem fitFn w b rng =
      some (food, w.setBeast b', rng') := by
    unfold speciesFeedSem
    simp only [hbl, hspp, if_true]
    rw [heqPL]
    rfl
  have hskel1 : (w.setBeast b').beasts.map beastSkel =
      w.beasts.map beastSkel :=
    map_beastSkel_replace w.beasts b b' h1 hbm hskb'
  have hinv1 : WInv (w.setBeast b') :=
    WInv_congr w (w.setBeast b') hskel1 rfl ⟨h1, h2, h3, h4, h5⟩
  have hbisa : b.isa = p := hsp b hbm hp
  have hfoodfacts : ∀ fid ∈ food,
      ∃ prey ∈ w.beasts, prey.id = fid ∧ prey.isa ≠ b.isa ∧
        w.isPred prey = false := by
    intro fid hfid
    obtain ⟨prey, hpm, hpid, hpne⟩ := hprops fid hfid
    refine ⟨prey, hpm, hpid, hpne, ?_⟩
    cases hv : w.isPred prey with
    | false => rfl
    | true => exact absurd (hsp prey hpm hv) (fun h => hpne (h.trans hbisa.symm))
  have haidnotin : aid ∉ food := by
    intro hcontra
    obtain ⟨prey, hpm, hpid, hpne, _⟩ := hfoodfacts aid hcontra
    have hpb : prey = b := hinj prey hpm b hbm (hpid.trans hbid.symm)
    exact hpne (by rw [hpb])
  have hfoodnd : food.Nodup := (h2 ci hcilen).sublist hsub
  have hfood1 : ∀ fid ∈ food,
      ∃ x ∈ (w.setBeast b').beasts, x.id = fid ∧
        (w.setBeast b').isPred x = false := by
    intro fid hfid
    obtain ⟨prey, hpm, hpid, hpne, hpnp⟩ := hfoodfacts fid hfid
    have hpneid : prey.id ≠ b'.id := by
      have hb'id : b'.id = b.id := congrArg (fun s => s.1) hskb'
      rw [hb'id]
      intro hcontra
      exact hpne (by rw [hinj prey hpm b hbm hcontra])
    have hmem1 : prey ∈ (w.setBeast b').beasts := by
      have := @mem_replaceBeast w.beasts b' prey hpm
      rw [if_neg hpneid] at this
      exact this
    exact ⟨prey, hmem1, hpid, hpnp⟩
  obtain ⟨w2, hdf, hinv2, hspe2, hchar2⟩ :=
    deleteFood_props food (w.setBeast b') hinv1 hfoodnd hfood1
  have hfoodne : food ≠ [aid] := by
    intro hcontra
    exact haidnotin (hcontra ▸ List.mem_cons_self aid [])
  have hmain : feedTurn fitFn w aid rng = some (w2, rng') := by
    unfold feedTurn
    rw [hfind]
    simp only [hfeed]
    rw [if_neg hfoodne, hdf]
    rfl
  have hspe2' : w2.species = w.species := hspe2
  refine ⟨w2, rng', hmain, hinv2, hspe2', ?_, ?_⟩
  · intro x hx
    obtain ⟨hx1, _⟩ := (hchar2 x).mp hx
    exact skel_mem_back hskel1 hx1
  · intro a ⟨x, hx, hxid, hxp⟩
    have hb'id : b'.id = b.id := congrArg (fun s => s.1) hskb'
    have hb'isa : b'.isa = b.isa := congrArg (fun s => s.2.1) hskb'
    have hanotin : a ∉ food := by
      intro hcontra
      obtain ⟨prey, hpm, hpid, hpne, _⟩ := hfoodfacts a hcontra
      have hpx : prey = x := hinj prey hpm x hx (hpid.trans hxid.symm)
      have hxisa : x.isa = p := hsp x hx hxp
      exact hpne (by rw [hpx, hxisa, hbisa])
    have hx1m : (if x.id = b'.id then b' else x) ∈ (w.setBeast b').beasts :=
      mem_replaceBeast hx
    have hx1id : (if x.id = b'.id then b' else x).id = x.id := ite_replace_id x b'
    have hx1isa : (if x.id = b'.id then b' else x).isa = x.isa := by
      by_cases hxe : x.id = b'.id
      · rw [if_pos hxe, hb'isa,
          hinj x hx b hbm (by rw [hxe, hb'id])]
      · rw [if_neg hxe]
    refine ⟨if x.id = b'.id then b' else x, ?_, hx1id.trans hxid, ?_⟩
    · exact (hchar2 _).mpr ⟨hx1m, by rw [hx1id, hxid]; exact hanotin⟩
    · show (w2.species.getD (if x.id = b'.id then b' else x).isa
          dfltSpecies).predatory = true
      rw [hspe2', hx1isa]
      exact hxp

/-- The herbivore segment of the Sustenance pass: every listed herbivore
turn succeeds, randomness is untouched, and only weights and feed levels
change. -/
theorem herbFold_props (fitFn : FitFn) (hord : List Nat) :
    ∀ (w : World) (rng : List ℚ), WInv w →
    (∀ a ∈ hord, ∃ x ∈ w.beasts, x.id = a ∧ w.isPred x = false ∧
      x.loci ≠ none) →
    ∃ w', hord.foldl (feedStep fitFn) (some (w, rng)) = some (w', rng) ∧
      w'.species = w.species ∧
      w'.beasts.map beastSkel = w.beasts.map beastSkel ∧
      w'.cells.map cellSkel = w.cells.map cellSkel := by
  induction hord with
  | nil =>
    intro w rng _ _
    exact ⟨w, rfl, rfl, rfl, rfl⟩
  | cons a rest ih =>
    intro w rng hinv hmem
    obtain ⟨x, hx, hxid, hxnp, hxloc⟩ := hmem a (List.mem_cons_self a rest)
    have hfs : (w.findBeast a).isSome := by
      unfold World.findBeast
      exact List.find?_isSome.mpr ⟨x, hx, by simpa using hxid⟩
    obtain ⟨b, hb⟩ := Option.isSome_iff_exists.mp hfs
    have hb' : w.beasts.find? (fun y => y.id = a) = some b := hb
    have hbm : b ∈ w.beasts := List.mem_of_find?_eq_some hb'
    have hbid : b.id = a := by simpa using List.find?_some hb'
    have hbx : b = x :=
      List.inj_on_of_nodup_map hinv.1 hbm hx (hbid.trans hxid.symm)
    obtain ⟨w1, hturn, hspe1, hbs1, hcs1⟩ :=
      herbTurn_props fitFn w a rng b hinv hb (hbx ▸ hxnp) (hbx ▸ hxloc)
    have hinv1 : WInv w1 := WInv_congr w w1 hbs1 hcs1 hinv
    have hmem1 : ∀ a' ∈ rest, ∃ y ∈ w1.beasts, y.id = a' ∧
        w1.isPred y = false ∧ y.loci ≠ none := by
      intro a' ha'
      obtain ⟨y, hy, hyid, hynp, hyloc⟩ := hmem a' (List.mem_cons_of_mem a ha')
      obtain ⟨y', hy', hy'id, hy'isa, hy'loci⟩ := skel_mem_back hbs1.symm hy
      refine ⟨y', hy', hy'id.trans hyid, ?_, ?_⟩
      · show (w1.species.getD y'.isa dfltSpecies).predatory = false
        rw [hspe1, hy'isa]
        exact hynp
      · rw [hy'loci]
        exact hyloc
    obtain ⟨w', hrest, hspe', hbs', hcs'⟩ := ih w1 rng hinv1 hmem1
    refine ⟨w', ?_, hspe'.trans hspe1, hbs'.trans hbs1, hcs'.trans hcs1⟩
    rw [List.foldl_cons]
    have hstep : feedStep fitFn (some (w, rng)) a = some (w1, rng) := by
      unfold feedStep
      rw [Option.some_bind]
      exact hturn
    rw [hstep]
    exact hrest

/-- The predator segment of the Sustenance pass succeeds when all
predatory animals belong to the single predatory species `p`. -/
theorem predFold_some (fitFn : FitFn) (p : Nat) (pord : List Nat) :
    ∀ (w : World) (rng : List ℚ), WInv w →
    (∀ x ∈ w.beasts, x.loci ≠ none) →
    (∀ x ∈ w.beasts, w.isPred x = true → x.isa = p) →
    (∀ a ∈ pord, ∃ x ∈ w.beasts, x.id = a ∧ w.isPred x = true) →
    (pord.foldl (feedStep fitFn) (some (w, rng))).isSome = true := by
  induction pord with
  | nil =>
    intro w rng _ _ _ _
    rfl
  | cons a rest ih =>
    intro w rng hinv hloc hsp hmem
    obtain ⟨x, hx, hxid, hxp⟩ := hmem a (List.mem_cons_self a rest)
    have hfs : (w.findBeast a).isSome := by
      unfold World.findBeast
      exact List.find?_isSome.mpr ⟨x, hx, by simpa using hxid⟩
    obtain ⟨b, hb⟩ := Option.isSome_iff_exists.mp hfs
    have hb' : w.beasts.find? (fun y => y.id = a) = some b := hb
    have hbm : b ∈ w.beasts := List.mem_of_find?_eq_some hb'
    have hbid : b.id = a := by simpa using List.find?_some hb'
    have hbx : b = x :=
      List.inj_on_of_nodup_map hinv.1 hbm hx (hbid.trans hxid.symm)
    obtain ⟨w2, rng1, hturn, hinv2, hspe2, hback, hpred2⟩ :=
      predTurn_props fitFn w a rng p b hinv hb (hbx ▸ hxp) hloc hsp
    have hloc2 : ∀ y ∈ w2.beasts, y.loci ≠ none := by
      intro y hy
      obtain ⟨y0, hy0, _, _, hy0loci⟩ := hback y hy
      rw [← hy0loci]
      exact hloc y0 hy0
    have hsp2 : ∀ y ∈ w2.beasts, w2.isPred y = true → y.isa = p := by
      intro y hy hyp
      obtain ⟨y0, hy0, _, hy0isa, _⟩ := hback y hy
      rw [← hy0isa]
      refine hsp y0 hy0 ?_
      show (w.species.getD y0.isa dfltSpecies).predatory = true
      have hyp' : (w2.species.getD y.isa dfltSpecies).predatory = true := hyp
      rw [hspe2, ← hy0isa] at hyp'
      exact hyp'
    have hmem2 : ∀ a' ∈ rest, ∃ y ∈ w2.beasts, y.id = a' ∧
        w2.isPred y = true := by
      intro a' ha'
      exact hpred2 a' (hmem a' (List.mem_cons_of_mem a ha'))
    rw [List.foldl_cons]
    have hstep : feedStep fitFn (some (w, rng)) a = some (w2, rng1) := by
      unfold feedStep
      rw [Option.some_bind]
      exact hturn
    rw [hstep]
    exact ih w2 rng1 hinv2 hloc2 hsp2 hmem2

/-- **C2 (amended).**  For a population whose predatory animals all belong
to a single predatory species, the Sustenance pass is safe: it runs to
completion (`isSome`), which in this model means every consumed prey is a
stored animal erased exactly once (`deleteBeast` fails on a second delete
of the same identifier) and no consumed animal ever receives its own
feeding turn afterwards in the same pass (`feedTurn` fails on a freed
identifier).  With more than one predatory species this breaks down (see
the counterexample), as the source's own comment concedes. -/
theorem feedPass_single_predator_safe (fitFn : FitFn) (w : World)
    (rng : List ℚ) (p : Nat) (hinv : WInv w)
    (hloc : ∀ b ∈ w.beasts, b.loci ≠ none)
    (hsp : ∀ b ∈ w.beasts, w.isPred b = true → b.isa = p) :
    (feedPass fitFn w rng).isSome = true := by
  have hperm : ∀ y : Beast, y ∈ List.insertionSort
      (fun a b => Beast.fitness fitFn b ≤ Beast.fitness fitFn a) w.beasts ↔
      y ∈ w.beasts :=
    fun y => (List.perm_insertionSort _ w.beasts).mem_iff
  unfold feedPass feedOrder
  simp only [List.map_append, List.foldl_append]
  have hmemH : ∀ a ∈ (List.filter (fun b => !(w.isPred b))
      (List.insertionSort
        (fun a b => Beast.fitness fitFn b ≤ Beast.fitness fitFn a)
        w.beasts)).map Beast.id,
      ∃ x ∈ w.beasts, x.id = a ∧ w.isPred x = false ∧ x.loci ≠ none := by
    intro a ha
    obtain ⟨y, hyf, rfl⟩ := List.mem_map.mp ha
    obtain ⟨hys, hyp⟩ := List.mem_filter.mp hyf
    have hyw : y ∈ w.beasts := (hperm y).mp hys
    refine ⟨y, hyw, rfl, ?_, hloc y hyw⟩
    simpa using hyp
  obtain ⟨w', hherb, hspe', hbs', hcs'⟩ :=
    herbFold_props fitFn _ w rng hinv hmemH
  rw [hherb]
  have hinv' : WInv w' := WInv_congr w w' hbs' hcs' hinv
  have hloc' : ∀ y ∈ w'.beasts, y.loci ≠ none := by
    intro y hy
    obtain ⟨y0, hy0, _, _, hy0loci⟩ := skel_mem_back hbs' hy
    rw [← hy0loci]
    exact hloc y0 hy0
  have hsp' : ∀ y ∈ w'.beasts, w'.isPred y = true → y.isa = p := by
    intro y hy hyp
    obtain ⟨y0, hy0, _, hy0isa, _⟩ := skel_mem_back hbs' hy
    rw [← hy0isa]
    refine hsp y0 hy0 ?_
    show (w.species.getD y0.isa dfltSpecies).predatory = true
    have hyp2 : (w'.species.getD y.isa dfltSpecies).predatory = true := hyp
    rw [hspe', ← hy0isa] at hyp2
    exact hyp2
  have hmemP : ∀ a ∈ (List.filter (fun b => w.isPred b)
      (List.insertionSort
        (fun a b => Beast.fitness fitFn b ≤ Beast.fitness fitFn a)
        w.beasts)).map Beast.id,
      ∃ x ∈ w'.beasts, x.id = a ∧ w'.isPred x = true := by
    intro a ha
    obtain ⟨y, hyf, rfl⟩ := List.mem_map.mp ha
    obtain ⟨hys, hyp⟩ := List.mem_filter.mp hyf
    have hyw : y ∈ w.beasts := (hperm y).mp hys
    obtain ⟨y', hy', hy'id, hy'isa, _⟩ := skel_mem_back hbs'.symm hyw
    refine ⟨y', hy', hy'id, ?_⟩
    show (w'.species.getD y'.isa dfltSpecies).predatory = true
    rw [hspe', hy'isa]
    exact hyp
  exact predFold_some fitFn p _ w' rng hinv' hloc' hsp' hmemP

/-- **C2 witness.**  The amended theorem at a concrete world with one
herbivore and one predator sharing a cell: the pass completes. -/
theorem feedPass_single_predator_safe_witness :
    (feedPass (fun i _ _ => if i = 0 then 1/10 else 9/10)
      { species := [{ name := "H", predatory := false, v_fod := 0, beta := 1,
                      v_min := 0, gamma := 0, zeta := 0, omega := 0,
                      F := 10, deltaPhiMax := -1 },
                    { name := "P", predatory := true, v_fod := 0, beta := 1,
                      v_min := 0, gamma := 0, zeta := 0, omega := 0,
                      F := -1, deltaPhiMax := 1/2 }],
        beasts := [{ id := 0, isa := 0, vekt := 5, alder := 1, loci := some 0 },
                   { id := 1, isa := 1, vekt := 5, alder := 1, loci := some 0 }],
        cells := [{ live := true, feed := 20, habitants := [0, 1] }],
        cols := 1, rows := 1 } [0]).isSome = true :=
  feedPass_single_predator_safe (fun i _ _ => if i = 0 then 1/10 else 9/10)
    { species := [{ name := "H", predatory := false, v_fod := 0, beta := 1,
                    v_min := 0, gamma := 0, zeta := 0, omega := 0,
                    F := 10, deltaPhiMax := -1 },
                  { name := "P", predatory := true, v_fod := 0, beta := 1,
                    v_min := 0, gamma := 0, zeta := 0, omega := 0,
                    F := -1, deltaPhiMax := 1/2 }],
      beasts := [{ id := 0, isa := 0, vekt := 5, alder := 1, loci := some 0 },
                 { id := 1, isa := 1, vekt := 5, alder := 1, loci := some 0 }],
      cells := [{ live := true, feed := 20, habitants := [0, 1] }],
      cols := 1, rows := 1 } [0] 1
    ⟨by decide, by decide, by decide, by decide, by decide⟩
    (by decide) (by decide)

/-- **C2 counterexample.**  With two predatory species the invariant of
the claim fails: the fitter predator (species 0) consumes the weaker
predator (species 1), which is erased and freed, yet still receives its
own feeding turn later in the same pass — a dangling-pointer dereference
(`none`), exactly the unsafety conceded by the comment in the source. -/
theorem feedPass_two_predators_unsafe :
    feedPass (fun i _ _ => if i = 0 then 9/10 else 1/10)
      { species := [{ name := "A", predatory := true, v_fod := 0, beta := 1,
                      v_min := 0, gamma := 0, zeta := 0, omega := 0,
                      F := -1, deltaPhiMax := 1/2 },
                    { name := "B", predatory := true, v_fod := 0, beta := 1,
                      v_min := 0, gamma := 0, zeta := 0, omega := 0,
                      F := -1, deltaPhiMax := 1/2 }],
        beasts := [{ id := 0, isa := 0, vekt := 1, alder := 0, loci := some 0 },
                   { id := 1, isa := 1, vekt := 1, alder := 0, loci := some 0 }],
        cells := [{ live := true, feed := 0, habitants := [0, 1] }],
        cols := 1, rows := 1 } [0] = none := by
  norm_num [feedPass, feedOrder, feedStep, feedTurn, speciesFeedSem, predLoop,
    eatSem, captureChance, deleteFood, deleteBeast, World.findBeast,
    World.isPred, World.setBeast, replaceBeast, removeFromLoci,
    CellSt.removeAnimal, Beast.fitness, dfltSpecies, zombieCell,
    List.insertionSort, List.orderedInsert, List.find?, List.filter,
    List.foldl, insertId]

end BioSim
